import Mathlib

/-!
Verification of the data-format-to-Go-struct converter (`src/lib/utils.ts`).

The TypeScript source is shallowly embedded below.  JavaScript strings are
modelled as Lean `String` / `List Char`; JavaScript regular expressions are
embedded as hand-derived deterministic scanners whose behaviour on the
relevant input class coincides with the backtracking semantics of the
original patterns (each scanner documents the pattern it implements);
JavaScript numbers are modelled as `Rat`; the object graphs handled by the
JSON/YAML value walker are modelled with an explicit heap of object records
so that reference identity (and hence cyclic object graphs) is expressible.
-/

namespace DF2S

/-- JavaScript regex `\s` / `String.prototype.trim` whitespace, restricted to
the ASCII range actually produced by the converter's inputs. -/
def jsWs (c : Char) : Bool :=
  c = ' ' || c = '\t' || c = '\n' || c = '\r' || c = '\x0b' || c = '\x0c'

/-- JavaScript regex `\w`: ASCII letters, digits and underscore. -/
def jsWord (c : Char) : Bool :=
  c.isAlpha || c.isDigit || c = '_'

/-- ASCII digit test (regex `\d`). -/
def jsDigit (c : Char) : Bool :=
  c.isDigit

/-- ASCII upper-casing of a character (JS `toUpperCase` on the inputs used). -/
def upChar (c : Char) : Char :=
  if 'a' ≤ c && c ≤ 'z' then Char.ofNat (c.toNat - 32) else c

/-- ASCII lower-casing of a character (JS `toLowerCase` on the inputs used). -/
def lowChar (c : Char) : Char :=
  if 'A' ≤ c && c ≤ 'Z' then Char.ofNat (c.toNat + 32) else c

/-- JS `String.prototype.trim` on a character list. -/
def trimJs (l : List Char) : List Char :=
  ((l.dropWhile jsWs).reverse.dropWhile jsWs).reverse

/-- Case-insensitive equality of two character lists (ASCII). -/
def ciEq (a b : List Char) : Bool :=
  a.map upChar = b.map upChar

/-- `hay.includes(needle)`: substring containment on character lists. -/
def containsSub (hay needle : List Char) : Bool :=
  match hay with
  | [] => needle.isEmpty
  | _ :: t => needle.isPrefixOf hay || containsSub t needle

/-- `hay.includes(needle)` on strings. -/
def strContains (hay needle : String) : Bool :=
  containsSub hay.toList needle.toList

/-- JS `s.startsWith(pre)`. -/
def strStartsWith (s pre : String) : Bool :=
  pre.toList.isPrefixOf s.toList

/-- JS `s.endsWith(suf)`. -/
def strEndsWith (s suf : String) : Bool :=
  suf.toList.isSuffixOf s.toList

/-- First-occurrence string replacement, as JS `replace` with a string
pattern: replace the leftmost occurrence of `pat` in `s` by `rep`. -/
def replaceOnceAux (pre s pat rep : List Char) : List Char :=
  match s with
  | [] => pre.reverse ++ s
  | c :: t =>
    if pat.isPrefixOf s then pre.reverse ++ rep ++ s.drop pat.length
    else replaceOnceAux (c :: pre) t pat rep

/-- JS `s.replace(pat, rep)` with a plain-string pattern (first occurrence). -/
def strReplaceOnce (s pat rep : String) : String :=
  ⟨replaceOnceAux [] s.toList pat.toList rep.toList⟩

/-- Split a character list at `sep` characters (JS `split(sep)` for a
one-character separator). -/
def splitChar (sep : Char) (l : List Char) : List (List Char) :=
  match l with
  | [] => [[]]
  | c :: t =>
    let r := splitChar sep t
    if c = sep then [] :: r
    else match r with
      | [] => [[c]]
      | h :: t' => (c :: h) :: t'

/-- Split into lines at `/\r?\n/`: split at `'\n'`, dropping a carriage
return that immediately precedes the newline. -/
def splitLinesJs (l : List Char) : List (List Char) :=
  (splitChar '\n' l).map (fun line =>
    match line.reverse with
    | '\r' :: r => r.reverse
    | _ => line)

end DF2S

namespace DF2S

/-! ## The JSON/YAML value model

JavaScript values reaching `inferGoType` / `jsonToGo` are modelled by
`JVal`.  Plain objects carry reference identity in JavaScript (cyclic
object graphs are constructed through it), so an object is represented as
an index `jobj id` into an explicit heap assigning each object identity its
ordered list of entries.  Arrays are inlined structurally (their identity
is not tracked; the converter's cycle set only ever observes plain-object
identities on the inputs modelled here). -/

inductive JVal where
  | jnull
  | jbool (b : Bool)
  | jnum (q : Rat)
  | jstr (s : String)
  | jarr (elems : List JVal)
  | jobj (id : Nat)

/-- The object heap: index `id` holds the entry list of object `id`. -/
abbrev Heap := List (List (String × JVal))

/-- The `GoType` record of `src/lib/utils.ts` (`type`, `isPointer`,
`isArray`, optional `elementType`). -/
inductive GoType where
  | mk (type : String) (isPointer : Bool) (isArray : Bool)
      (elementType : Option GoType)

def GoType.type : GoType → String
  | .mk t _ _ _ => t

def GoType.isPointer : GoType → Bool
  | .mk _ p _ _ => p

def GoType.isArray : GoType → Bool
  | .mk _ _ a _ => a

/-- The mutation `goType.type = nestedStructName` from `jsonToGo`. -/
def GoType.withType : GoType → String → GoType
  | .mk _ p a e, t => .mk t p a e

/-! `inferGoType` (utils.ts lines 11-57).  The JS `Set` argument `seen` is
mutated in place (`seen.add(value)`), so the embedding threads the updated
set through and returns it; `inferGoTypeList` is the threading of the
shared set through `value.map(item => inferGoType(item, seen))`.  JS
numbers are modelled as `Rat`; `Number.isInteger` is `q.den = 1`. -/
mutual

def inferGoType (v : JVal) (seen : List Nat) : GoType × List Nat :=
  match v with
  | .jnull => (.mk "interface\x7b\x7d" true false none, seen)
  | .jarr elems =>
    match elems with
    | [] => (.mk "interface\x7b\x7d" false true none, seen)
    | e0 :: rest =>
      let (t0, seen') := inferGoType e0 seen
      let (ts, seen'') := inferGoTypeList rest seen'
      let isSameType := (t0 :: ts).all
        (fun t => t.type == t0.type && t.isPointer == t0.isPointer)
      if isSameType then
        (.mk t0.type t0.isPointer true (some t0), seen'')
      else
        (.mk "interface\x7b\x7d" false true none, seen'')
  | .jstr _ => (.mk "string" false false none, seen)
  | .jnum q =>
    if q.den = 1 then
      if (2147483647 : Rat) < q ∨ q < (-2147483648 : Rat) then
        (.mk "int64" false false none, seen)
      else
        (.mk "int" false false none, seen)
    else
      (.mk "float64" false false none, seen)
  | .jbool _ => (.mk "bool" false false none, seen)
  | .jobj id =>
    if id ∈ seen then (.mk "interface\x7b\x7d" true false none, seen)
    else (.mk "struct" false false none, id :: seen)

def inferGoTypeList (l : List JVal) (seen : List Nat) : List GoType × List Nat :=
  match l with
  | [] => ([], seen)
  | v :: t =>
    let (g, seen') := inferGoType v seen
    let (gs, seen'') := inferGoTypeList t seen'
    (g :: gs, seen'')

end

/-- `formatGoFieldType` (utils.ts lines 59-69). -/
def formatGoFieldType (t : GoType) : String :=
  (if t.isArray then "[]" else "") ++ (if t.isPointer then "*" else "") ++ t.type

/-- `capitalizeFirst` (utils.ts lines 71-73). -/
def capitalizeFirst (s : String) : String :=
  match s.toList with
  | [] => ""
  | c :: t => ⟨upChar c :: t⟩

/-- `Object.entries` on a JS array: index-keyed entries. -/
def enumEntries (i : Nat) (l : List JVal) : List (String × JVal) :=
  match l with
  | [] => []
  | v :: t => (toString i, v) :: enumEntries (i + 1) t

/-- Truthiness test `elementValue && typeof elementValue === "object"`. -/
def isObjLike (v : JVal) : Bool :=
  match v with
  | .jarr _ => true
  | .jobj _ => true
  | _ => false

end DF2S

namespace DF2S

/-! ## `jsonToGo` (utils.ts lines 75-111)

`jsonToGo` recurses through the object graph; in JavaScript the recursion
terminates because each branch carries a growing visited set of object
identities.  In Lean the function is defined with an explicit fuel
parameter (`none` = fuel exhausted); `jsonToGo_total` below proves that the
fuel bound used by the `jsonToGo` wrapper is always sufficient, which is
the termination statement for the source function.

`jsonToGoEntries` is the `for (const [key, value] of Object.entries(obj))`
loop; it returns the accumulated `nestedStructs.join("")` text and the
accumulated field lines.  The visited set passed in already contains the
current object (`seen.add(obj)` runs before the loop), and every use of the
set by the loop body is on a copy (`new Set(seen)`), so the set is passed
unchanged to each iteration. -/

mutual

def jsonToGoF (fuel : Nat) (heap : Heap) (v : JVal) (structName : String)
    (seen : List Nat) : Option String :=
  match fuel with
  | 0 => none
  | f + 1 =>
    match v with
    | .jnull => some ""
    | .jbool _ => some ""
    | .jnum _ => some ""
    | .jstr _ => some ""
    | .jobj id =>
      if id ∈ seen then some ""
      else
        let entries := (heap[id]?).getD []
        (jsonToGoEntries f heap entries structName (id :: seen)).map
          (fun p => p.1 ++ "type " ++ structName ++ " struct \x7b\n" ++ p.2
            ++ "\x7d\n\n")
    | .jarr elems =>
      let entries := enumEntries 0 elems
      (jsonToGoEntries f heap entries structName seen).map
        (fun p => p.1 ++ "type " ++ structName ++ " struct \x7b\n" ++ p.2
          ++ "\x7d\n\n")
termination_by (fuel, 0)

def jsonToGoStep (fuel : Nat) (heap : Heap) (value : JVal)
    (structName fieldName : String) (seen : List Nat) :
    Option (String × GoType) :=
  let goType := (inferGoType value seen).1
  if goType.type = "struct" then
    let nestedStructName := structName ++ fieldName
    match value with
    | .jarr elems =>
      match elems.head? with
      | some w =>
        if isObjLike w then
          (jsonToGoF fuel heap w nestedStructName seen).map
            (fun s => (s, goType.withType nestedStructName))
        else some ("", goType)
      | none => some ("", goType)
    | _ =>
      (jsonToGoF fuel heap value nestedStructName seen).map
        (fun s => (s, goType.withType nestedStructName))
  else some ("", goType)
termination_by (fuel, 1)

def jsonToGoEntries (fuel : Nat) (heap : Heap)
    (entries : List (String × JVal)) (structName : String)
    (seen : List Nat) : Option (String × String) :=
  match entries with
  | [] => some ("", "")
  | (key, value) :: rest =>
    let fieldName := capitalizeFirst key
    match jsonToGoStep fuel heap value structName fieldName seen with
    | none => none
    | some (nested, gt) =>
      match jsonToGoEntries fuel heap rest structName seen with
      | none => none
      | some p =>
        some (nested ++ p.1,
          "\t" ++ fieldName ++ " " ++ formatGoFieldType gt ++ " `json:\""
            ++ key ++ "\" yaml:\"" ++ key ++ "\"`\n" ++ p.2)
termination_by (fuel, 2 + entries.length)

end

/-! Size measures used to bound the fuel needed by `jsonToGoF`. -/

mutual

def jsize : JVal → Nat
  | .jarr l => 1 + jsizeList l
  | _ => 1

def jsizeList : List JVal → Nat
  | [] => 0
  | v :: t => 1 + jsize v + jsizeList t

end

def esize : List (String × JVal) → Nat
  | [] => 0
  | (_, v) :: t => 1 + jsize v + esize t

def heapSize (heap : Heap) : Nat :=
  match heap with
  | [] => 0
  | ents :: t => 1 + esize ents + heapSize t

/-- Number of heap indices not yet in the visited set. -/
def unseenCount (heap : Heap) (seen : List Nat) : Nat :=
  ((List.range heap.length).filter (fun i => decide (i ∉ seen))).length

/-- Fuel measure for a `jsonToGoF` call. -/
def goMeasure (heap : Heap) (v : JVal) (seen : List Nat) : Nat :=
  unseenCount heap seen * (heapSize heap + 1) + jsize v

/-- Fuel measure for a `jsonToGoEntries` call. -/
def entMeasure (heap : Heap) (entries : List (String × JVal))
    (seen : List Nat) : Nat :=
  unseenCount heap seen * (heapSize heap + 1) + esize entries

/-- `jsonToGo` (utils.ts lines 75-111), run with provably sufficient fuel
(`jsonToGo_total`). -/
def jsonToGo (heap : Heap) (v : JVal) (structName : String)
    (seen : List Nat := []) : String :=
  (jsonToGoF (goMeasure heap v seen + 1) heap v structName seen).getD ""

end DF2S

namespace DF2S

theorem jsize_pos (v : JVal) : 1 ≤ jsize v := by
  cases v <;> simp [jsize]

theorem esize_enumEntries (l : List JVal) : ∀ i, esize (enumEntries i l) = jsizeList l := by
  induction l with
  | nil => intro i; simp [enumEntries, esize, jsizeList]
  | cons v t ih => intro i; simp [enumEntries, esize, jsizeList, ih]

theorem esize_get (heap : Heap) :
    ∀ (id : Nat) (ents : List (String × JVal)), heap[id]? = some ents →
      esize ents < heapSize heap := by
  induction heap with
  | nil => intro id ents h; cases h
  | cons e t ih =>
    intro id ents h
    match id with
    | 0 =>
      obtain rfl : e = ents := by simpa using h
      simp only [heapSize]
      omega
    | n + 1 =>
      rw [List.getElem?_cons_succ] at h
      have := ih n ents h
      simp only [heapSize]
      omega

theorem get_lt_length (heap : Heap) (id : Nat) (ents : List (String × JVal))
    (h : heap[id]? = some ents) : id < heap.length := by
  by_contra hlt
  rw [List.getElem?_eq_none (Nat.le_of_not_lt hlt)] at h
  exact Option.noConfusion h

theorem jsize_head (elems : List JVal) (w : JVal) (h : elems.head? = some w) :
    jsize w + 2 ≤ jsize (JVal.jarr elems) := by
  cases elems with
  | nil => simp at h
  | cons e t =>
    simp at h
    subst h
    simp [jsize, jsizeList]
    omega

theorem countP_lt_of {α : Type} (l : List α) (p q : α → Bool)
    (hpq : ∀ x ∈ l, p x → q x) (a : α) (ha : a ∈ l) (hqa : q a)
    (hpa : ¬ p a) : l.countP p < l.countP q := by
  induction l with
  | nil => cases ha
  | cons b t ih =>
    rcases List.mem_cons.mp ha with rfl | hmem
    · rw [List.countP_cons, List.countP_cons]
      have hle := List.countP_mono_left (l := t)
        fun x hx => hpq x (List.mem_cons_of_mem _ hx)
      have h1 : (if p a then 1 else 0) = 0 := by simp [hpa]
      have h2 : (if q a then 1 else 0) = 1 := by simp [hqa]
      omega
    · have hlt := ih (fun x hx => hpq x (List.mem_cons_of_mem _ hx)) hmem
      rw [List.countP_cons, List.countP_cons]
      have hif : (if p b then 1 else 0) ≤ (if q b then 1 else 0) := by
        by_cases hb : p b
        · simp [hb, hpq b (List.mem_cons_self _ _) hb]
        · simp [hb]
      omega

theorem unseenCount_cons_le (heap : Heap) (x : Nat) (seen : List Nat) :
    unseenCount heap (x :: seen) ≤ unseenCount heap seen := by
  unfold unseenCount
  rw [← List.countP_eq_length_filter, ← List.countP_eq_length_filter]
  refine List.countP_mono_left fun i _ h => ?_
  simp at h ⊢
  exact h.2

theorem unseenCount_cons_lt (heap : Heap) (id : Nat) (seen : List Nat)
    (h1 : id < heap.length) (h2 : id ∉ seen) :
    unseenCount heap (id :: seen) < unseenCount heap seen := by
  unfold unseenCount
  rw [← List.countP_eq_length_filter, ← List.countP_eq_length_filter]
  refine countP_lt_of _ _ _ (fun i _ h => ?_) id (List.mem_range.mpr h1)
    (by simpa using h2) (by simp)
  simp at h ⊢
  exact h.2

end DF2S

namespace DF2S

theorem jsonToGoStep_isSome (heap : Heap) (fuel : Nat)
    (hP : ∀ v structName seen, goMeasure heap v seen < fuel →
      (jsonToGoF fuel heap v structName seen).isSome)
    (value : JVal) (structName fieldName : String) (seen : List Nat)
    (h : goMeasure heap value seen < fuel) :
    (jsonToGoStep fuel heap value structName fieldName seen).isSome := by
  by_cases hty : ((inferGoType value seen).1).type = "struct"
  · match value with
    | .jnull | .jbool _ | .jnum _ | .jstr _ | .jobj _ =>
      simp only [jsonToGoStep, hty, if_true]
      first
      | rfl
      | (obtain ⟨s, hs⟩ := Option.isSome_iff_exists.mp (hP _ (structName ++ fieldName) seen h)
         simp [hs])
    | .jarr elems =>
      simp only [jsonToGoStep, hty, if_true]
      cases helems : elems.head? with
      | none => simp [helems]
      | some w =>
        by_cases hobj : isObjLike w
        · have hwM : goMeasure heap w seen < fuel := by
            have hsz := jsize_head elems w helems
            simp only [jsize] at hsz
            unfold goMeasure at h ⊢
            simp only [jsize] at h
            omega
          obtain ⟨s, hs⟩ := Option.isSome_iff_exists.mp
            (hP w (structName ++ fieldName) seen hwM)
          simp [helems, hobj, hs]
        · simp [helems, hobj]
  · simp [jsonToGoStep, hty]

theorem jsonToGoEntries_isSome (heap : Heap) (fuel : Nat)
    (hP : ∀ v structName seen, goMeasure heap v seen < fuel →
      (jsonToGoF fuel heap v structName seen).isSome) :
    ∀ (entries : List (String × JVal)) (structName : String) (seen : List Nat),
      entMeasure heap entries seen < fuel →
      (jsonToGoEntries fuel heap entries structName seen).isSome := by
  intro entries
  induction entries with
  | nil => intro sn seen h; simp [jsonToGoEntries]
  | cons e rest ih =>
    obtain ⟨key, value⟩ := e
    intro sn seen h
    have hstepM : goMeasure heap value seen < fuel := by
      unfold entMeasure at h
      unfold goMeasure
      simp only [esize] at h
      omega
    have hstep := jsonToGoStep_isSome heap fuel hP value sn
      (capitalizeFirst key) seen hstepM
    have hrest : entMeasure heap rest seen < fuel := by
      unfold entMeasure at h ⊢
      simp only [esize] at h
      omega
    have hr := ih sn seen hrest
    obtain ⟨⟨nested, gt⟩, hp1⟩ := Option.isSome_iff_exists.mp hstep
    obtain ⟨p2, hp2⟩ := Option.isSome_iff_exists.mp hr
    simp [jsonToGoEntries, hp1, hp2]

theorem jsonToGoF_isSome (heap : Heap) :
    ∀ (fuel : Nat) (v : JVal) (structName : String) (seen : List Nat),
      goMeasure heap v seen < fuel →
      (jsonToGoF fuel heap v structName seen).isSome := by
  intro fuel
  induction fuel with
  | zero => intro v sn seen h; exact absurd h (Nat.not_lt_zero _)
  | succ f ihf =>
    intro v sn seen h
    match v with
    | .jnull | .jbool _ | .jnum _ | .jstr _ => simp [jsonToGoF]
    | .jobj id =>
      by_cases hid : id ∈ seen
      · simp [jsonToGoF, hid]
      · have hE : entMeasure heap ((heap[id]?).getD []) (id :: seen) < f := by
          cases hget : heap[id]? with
          | none =>
            have hle := unseenCount_cons_le heap id seen
            have hmul : unseenCount heap (id :: seen) * (heapSize heap + 1) ≤
                unseenCount heap seen * (heapSize heap + 1) :=
              Nat.mul_le_mul_right _ hle
            unfold goMeasure at h
            simp only [jsize] at h
            unfold entMeasure
            simp only [hget, Option.getD_none, esize]
            omega
          | some ents =>
            have hlt := unseenCount_cons_lt heap id seen
              (get_lt_length heap id ents hget) hid
            have hes := esize_get heap id ents hget
            have hmul : (unseenCount heap (id :: seen) + 1) * (heapSize heap + 1) ≤
                unseenCount heap seen * (heapSize heap + 1) :=
              Nat.mul_le_mul_right _ hlt
            rw [Nat.add_mul, one_mul] at hmul
            unfold goMeasure at h
            simp only [jsize] at h
            unfold entMeasure
            simp only [hget, Option.getD_some]
            omega
        have hsome := jsonToGoEntries_isSome heap f ihf _ sn (id :: seen) hE
        obtain ⟨p, hp⟩ := Option.isSome_iff_exists.mp hsome
        simp [jsonToGoF, hid, hp]
    | .jarr elems =>
      have hE : entMeasure heap (enumEntries 0 elems) seen < f := by
        unfold entMeasure
        rw [esize_enumEntries]
        unfold goMeasure at h
        simp only [jsize] at h
        omega
      have hsome := jsonToGoEntries_isSome heap f ihf _ sn seen hE
      obtain ⟨p, hp⟩ := Option.isSome_iff_exists.mp hsome
      simp [jsonToGoF, hp]

/-- The fuel used by the `jsonToGo` wrapper is always sufficient: the
source recursion terminates on every representable object graph, cyclic
ones included. -/
theorem jsonToGo_total (heap : Heap) (v : JVal) (structName : String)
    (seen : List Nat) :
    jsonToGoF (goMeasure heap v seen + 1) heap v structName seen =
      some (jsonToGo heap v structName seen) := by
  obtain ⟨s, hs⟩ := Option.isSome_iff_exists.mp
    (jsonToGoF_isSome heap (goMeasure heap v seen + 1) v structName seen
      (Nat.lt_succ_self _))
  rw [hs]
  simp [jsonToGo, hs]

end DF2S

namespace DF2S

/-! ## SQL conversion: options, tags, type mapping -/

/-- `DBType` (src/pages/types.ts). -/
inductive DBType where
  | mysql
  | postgres
  | sqlite
  | oracle
deriving DecidableEq

/-- `TagType` (src/pages/types.ts). -/
inductive TagType where
  | db
  | gorm
  | xorm
deriving DecidableEq

/-- `SQLOptions` (src/pages/types.ts). -/
structure SQLOptions where
  dbType : DBType
  tagType : TagType
  usePointer : Bool
deriving DecidableEq

/-- JS `s.replace(/"/g, '\\"')`: escape every double quote. -/
def escDQ (s : String) : String :=
  ⟨s.toList.flatMap (fun c => if c = '"' then ['\\', '"'] else [c])⟩

/-- JS `s.replace(/'/g, "\\'")`: escape every single quote. -/
def escSQ (s : String) : String :=
  ⟨s.toList.flatMap (fun c => if c = '\'' then ['\\', '\''] else [c])⟩

/-- JS `s.replace(/^['"](.*)['"]$/, '$1')`: strip one surrounding quote
character from each end when both ends are quote characters and the middle
contains no line terminator (regex `.` does not match newlines); otherwise
return the string unchanged. -/
def stripQuotes (s : String) : String :=
  match s.toList with
  | c :: (d :: t) =>
    let mid := (c :: (d :: t)).drop 1 |>.dropLast
    if (c = '\'' || c = '"') && (let last := (d :: t).getLast (by simp);
        last = '\'' || last = '"') &&
        mid.all (fun x => x ≠ '\n' && x ≠ '\r') then
      ⟨mid⟩
    else s
  | _ => s

/-- `generateTags` (utils.ts lines 308-356).  The `default` switch branch
is unreachable: `TagType` has exactly the three members `db`, `gorm`,
`xorm`. -/
def generateTags (fieldName : String) (options : SQLOptions)
    (comment : String := "") (defaultValue : String := "") : String :=
  let low := ⟨fieldName.toList.map lowChar⟩
  let base := "json:\"" ++ low ++ "\" yaml:\"" ++ low ++ "\""
  let tags :=
    match options.tagType with
    | .db =>
      [base, "db:\"" ++ low ++ "\""] ++
        (if defaultValue ≠ "" then ["default:\"" ++ escDQ defaultValue ++ "\""]
         else [])
    | .gorm =>
      let gormTag := ["column:" ++ low] ++
        (if comment ≠ "" then ["comment:'" ++ escSQ comment ++ "'"] else []) ++
        (if defaultValue ≠ "" then ["default:" ++ stripQuotes defaultValue]
         else [])
      [base, "gorm:\"" ++ String.intercalate ";" gormTag ++ "\""]
    | .xorm =>
      let xormTag := ["'" ++ low ++ "'"] ++
        (if comment ≠ "" then ["comment('" ++ escSQ comment ++ "')"] else []) ++
        (if defaultValue ≠ "" then ["default(" ++ stripQuotes defaultValue ++ ")"]
         else [])
      [base, "xorm:\"" ++ String.intercalate " " xormTag ++ "\""]
  "`" ++ String.intercalate " " tags ++ "`"

/-- Reserved words treated specially by `toPascalCase` (utils.ts 750-755). -/
def reservedWords : List String :=
  ["create", "update", "delete", "select", "insert",
   "from", "where", "group", "order", "having", "limit",
   "offset", "join", "union", "type", "interface", "struct",
   "func", "package", "import", "map", "chan", "go", "defer"]

/-- `toPascalCase` (utils.ts lines 741-766). -/
def toPascalCase (str : String) : String :=
  let result : List Char := str.toList.map lowChar
  let result :=
    if ("t_".toList).isPrefixOf result then result.drop 2
    else if ("tbl_".toList).isPrefixOf result then result.drop 4
    else result
  if reservedWords.contains ⟨result⟩ then
    capitalizeFirst ⟨result⟩ ++ "Field"
  else
    String.join ((splitChar '_' result).map (fun w => capitalizeFirst ⟨w⟩))

/-- `GoTypeOptions` (utils.ts lines 768-773). -/
structure GoTypeOptions where
  isUnsigned : Bool := false
  typeParams : String := ""
  isEnum : Bool := false
  enumValues : String := ""

/-- The `mysql` table of `getGoType` (utils.ts lines 793-826). -/
def mysqlTypeMap (isUnsigned : Bool) : List (String × String) :=
  [("INT", if isUnsigned then "uint" else "int"),
   ("TINYINT", if isUnsigned then "uint8" else "int8"),
   ("SMALLINT", if isUnsigned then "uint16" else "int16"),
   ("MEDIUMINT", if isUnsigned then "uint32" else "int32"),
   ("BIGINT", if isUnsigned then "uint64" else "int64"),
   ("DECIMAL", "float64"),
   ("NUMERIC", "float64"),
   ("FLOAT", "float32"),
   ("DOUBLE", "float64"),
   ("BIT", "uint8"),
   ("CHAR", "string"),
   ("VARCHAR", "string"),
   ("TINYTEXT", "string"),
   ("TEXT", "string"),
   ("MEDIUMTEXT", "string"),
   ("LONGTEXT", "string"),
   ("BINARY", "[]byte"),
   ("VARBINARY", "[]byte"),
   ("TINYBLOB", "[]byte"),
   ("BLOB", "[]byte"),
   ("MEDIUMBLOB", "[]byte"),
   ("LONGBLOB", "[]byte"),
   ("DATE", "time.Time"),
   ("TIME", "time.Time"),
   ("DATETIME", "time.Time"),
   ("TIMESTAMP", "time.Time"),
   ("YEAR", "int"),
   ("BOOLEAN", "bool"),
   ("BOOL", "bool"),
   ("ENUM", "string"),
   ("SET", "string"),
   ("JSON", "json.RawMessage")]

/-- The `postgres` table of `getGoType` (utils.ts lines 827-854). -/
def postgresTypeMap (isUnsigned : Bool) : List (String × String) :=
  [("SMALLINT", if isUnsigned then "uint16" else "int16"),
   ("INTEGER", if isUnsigned then "uint32" else "int"),
   ("BIGINT", if isUnsigned then "uint64" else "int64"),
   ("DECIMAL", "float64"),
   ("NUMERIC", "float64"),
   ("REAL", "float32"),
   ("DOUBLE PRECISION", "float64"),
   ("MONEY", "float64"),
   ("CHAR", "string"),
   ("CHARACTER", "string"),
   ("VARCHAR", "string"),
   ("CHARACTER VARYING", "string"),
   ("TEXT", "string"),
   ("BYTEA", "[]byte"),
   ("DATE", "time.Time"),
   ("TIME", "time.Time"),
   ("TIMESTAMP", "time.Time"),
   ("TIMESTAMPTZ", "time.Time"),
   ("INTERVAL", "time.Duration"),
   ("BOOLEAN", "bool"),
   ("UUID", "string"),
   ("JSON", "json.RawMessage"),
   ("JSONB", "json.RawMessage"),
   ("SERIAL", "int"),
   ("BIGSERIAL", "int64"),
   ("SMALLSERIAL", "int16")]

/-- The `sqlite` table of `getGoType` (utils.ts lines 855-865). -/
def sqliteTypeMap (isUnsigned : Bool) : List (String × String) :=
  [("INTEGER", if isUnsigned then "uint64" else "int64"),
   ("REAL", "float64"),
   ("TEXT", "string"),
   ("BLOB", "[]byte"),
   ("NUMERIC", "float64"),
   ("BOOLEAN", "bool"),
   ("DATETIME", "time.Time"),
   ("DATE", "time.Time"),
   ("VARCHAR", "string")]

/-- The `oracle` table of `getGoType` (utils.ts lines 866-886). -/
def oracleTypeMap (isUnsigned : Bool) (typeParams : String) :
    List (String × String) :=
  [("NUMBER", if typeParams ≠ "" && strContains typeParams "," then "float64"
      else if isUnsigned then "uint64" else "int64"),
   ("INTEGER", if isUnsigned then "uint64" else "int64"),
   ("FLOAT", "float64"),
   ("BINARY_FLOAT", "float32"),
   ("BINARY_DOUBLE", "float64"),
   ("VARCHAR2", "string"),
   ("NVARCHAR2", "string"),
   ("CHAR", "string"),
   ("NCHAR", "string"),
   ("CLOB", "string"),
   ("NCLOB", "string"),
   ("RAW", "[]byte"),
   ("BLOB", "[]byte"),
   ("DATE", "time.Time"),
   ("TIMESTAMP", "time.Time"),
   ("TIMESTAMP WITH TIME ZONE", "time.Time"),
   ("TIMESTAMP WITH LOCAL TIME ZONE", "time.Time"),
   ("INTERVAL YEAR TO MONTH", "string"),
   ("INTERVAL DAY TO SECOND", "string")]

/-- The per-dialect table (`typeMap[dbType]`). -/
def dialectTypeMap (dbType : DBType) (isUnsigned : Bool)
    (typeParams : String) : List (String × String) :=
  match dbType with
  | .mysql => mysqlTypeMap isUnsigned
  | .postgres => postgresTypeMap isUnsigned
  | .sqlite => sqliteTypeMap isUnsigned
  | .oracle => oracleTypeMap isUnsigned typeParams

/-- Collapse whitespace runs to single spaces (JS `replace(/\s+/g, ' ')`);
the fuel (one unit per character) makes the recursion structural. -/
def collapseWsF (fuel : Nat) (l : List Char) : List Char :=
  match fuel, l with
  | 0, _ => l
  | _, [] => []
  | f + 1, c :: t =>
    if jsWs c then ' ' :: collapseWsF f (t.dropWhile jsWs)
    else c :: collapseWsF f t

def collapseWs (l : List Char) : List Char :=
  collapseWsF l.length l

/-- `getGoType` (utils.ts lines 775-913). -/
def getGoType (sqlType : String) (dbType : DBType)
    (options : GoTypeOptions := {}) : String :=
  if options.isEnum then "string"
  else
    let normalizedType : List Char :=
      trimJs (collapseWs sqlType.toList) |>.map upChar
    let baseType : String := ⟨(splitChar ' ' normalizedType).headI⟩
    let tbl := dialectTypeMap dbType options.isUnsigned options.typeParams
    if dbType = .mysql && baseType = "TINYINT" && options.typeParams = "1" then
      "bool"
    else
      match tbl.lookup baseType with
      | some goType => goType
      | none =>
        match tbl.find? (fun p => strContains baseType p.1) with
        | some (sqlTypeKey, goTypeValue) =>
          if options.isUnsigned && strStartsWith sqlTypeKey "INT" then
            strReplaceOnce goTypeValue "int" "uint"
          else goTypeValue
        | none => "interface\x7b\x7d"

end DF2S

namespace DF2S

/-! ## The SQL column scanner (utils.ts line 376, `columnRegex`)

The pattern is

  (?:`|"|')?(\w+)(?:`|"|')?\s+(?:(enum)\s+\(([^)]+)\)|
    ([^\s,]+(?:\s+[^\s,]+)*)\s*(?:\(([^)]+)\))?)
  (?:\s+([^,]*?))?(?:\s+default\s+([^\s,]+|'[^']*'|"[^"]*"))?
  (?:\s+comment\s+(?:'([^']*)'|"([^"]*)"))?(?:,|$)

with flags `gim`.  The scanners below implement its backtracking
semantics: the optional quotes, `\w+`, `\s+` and the greedy token run of
group 4 are deterministic (every shorter backtracking alternative provably
fails); group 6's lazy `[^,]*?` is an ascending-length search whose
continuation is the `default`/`comment`/`(?:,|$)` chain; the `default`
value alternation tries the unquoted token first and falls back to the
quoted forms exactly when the continuation fails. -/

/-- Group-4 token class `[^\s,]`. -/
def isTok (c : Char) : Bool :=
  !(jsWs c) && c != ','

/-- Captures of one `columnRegex` match (`match[0]` and groups 1-9). -/
structure RawCol where
  fullMatch : String
  fieldName : String
  g2 : Option String
  g3 : Option String
  g4 : Option String
  g5 : Option String
  g6 : Option String
  g7 : Option String
  g8 : Option String
  g9 : Option String

/-- `(?:,|$)` with the `m` flag: consume a comma, or match the zero-width
end at end-of-input or before a line terminator. -/
def tailEnd (u : List Char) : Option (List Char) :=
  match u with
  | ',' :: t => some t
  | [] => some []
  | c :: _ => if c = '\n' || c = '\r' then some u else none

/-- A quoted literal `q[^q]*q`: returns the inner text and the suffix. -/
def quotedVal (q : Char) (u : List Char) : Option (String × List Char) :=
  match u with
  | c :: t =>
    if c = q then
      let inner := t.takeWhile (fun x => x ≠ q)
      match t.drop inner.length with
      | c2 :: t2 => if c2 = q then some (⟨inner⟩, t2) else none
      | [] => none
    else none
  | [] => none

/-- `(?:\s+comment\s+(?:'([^']*)'|"([^"]*)"))?(?:,|$)`. -/
def tryCommentBody (u : List Char) : Option (Option String × Option String × List Char) :=
  let ws := u.takeWhile jsWs
  if ws.isEmpty then none else
  let u1 := u.drop ws.length
  if ciEq (u1.take 7) "comment".toList then
    let u2 := u1.drop 7
    let ws2 := u2.takeWhile jsWs
    if ws2.isEmpty then none else
    let u3 := u2.drop ws2.length
    match quotedVal '\'' u3 with
    | some (inner, t2) => (tailEnd t2).map (fun r => (some inner, none, r))
    | none =>
      match quotedVal '"' u3 with
      | some (inner, t2) => (tailEnd t2).map (fun r => (none, some inner, r))
      | none => none
  else none

def tryComment (u : List Char) : Option (Option String × Option String × List Char) :=
  tryCommentBody u <|> (tailEnd u).map (fun r => (none, none, r))

/-- `(?:\s+default\s+([^\s,]+|'[^']*'|"[^"]*"))?` followed by the comment
chain.  A shorter unquoted token never helps (its continuation would start
on a token character, where the continuation always fails), so only the
maximal token is tried before the quoted alternatives. -/
def tryDefaultBody (u : List Char) :
    Option (Option String × Option String × Option String × List Char) :=
  let ws := u.takeWhile jsWs
  if ws.isEmpty then none else
  let u1 := u.drop ws.length
  if ciEq (u1.take 7) "default".toList then
    let u2 := u1.drop 7
    let ws2 := u2.takeWhile jsWs
    if ws2.isEmpty then none else
    let u3 := u2.drop ws2.length
    let alt1 :=
      let tok := u3.takeWhile isTok
      if tok.isEmpty then none else
      (tryComment (u3.drop tok.length)).map
        (fun p => (some (⟨tok⟩ : String), p.1, p.2.1, p.2.2))
    let alt2 :=
      match quotedVal '\'' u3 with
      | some (inner, t2) => (tryComment t2).map
          (fun p => (some ("'" ++ inner ++ "'"), p.1, p.2.1, p.2.2))
      | none => none
    let alt3 :=
      match quotedVal '"' u3 with
      | some (inner, t2) => (tryComment t2).map
          (fun p => (some ("\"" ++ inner ++ "\""), p.1, p.2.1, p.2.2))
      | none => none
    alt1 <|> alt2 <|> alt3
  else none

def tryDefault (u : List Char) :
    Option (Option String × Option String × Option String × List Char) :=
  tryDefaultBody u <|> (tryComment u).map (fun p => (none, p.1, p.2.1, p.2.2))

/-- The lazy `[^,]*?` of group 6: grow the captured prefix one character at
a time (never across a comma), trying the `default`/`comment`/end
continuation at each length. -/
def tailLazy (consumed rest : List Char) (budget : Nat) :
    Option (Option String × Option String × Option String × Option String × List Char) :=
  match tryDefault rest with
  | some (g7, g8, g9, r) => some (some ⟨consumed.reverse⟩, g7, g8, g9, r)
  | none =>
    match budget, rest with
    | b + 1, c :: t =>
      if c ≠ ',' then tailLazy (c :: consumed) t b else none
    | _, _ => none

/-- The common tail `(?:\s+([^,]*?))? (default)? (comment)? (?:,|$)`. -/
def tryTail (u : List Char) :
    Option (Option String × Option String × Option String × Option String × List Char) :=
  let ws := u.takeWhile jsWs
  if ws.isEmpty then
    (tryDefault u).map (fun p => (none, p.1, p.2.1, p.2.2.1, p.2.2.2))
  else
    let u1 := u.drop ws.length
    (tailLazy [] u1 ((u1.takeWhile (fun c => c ≠ ',')).length))
    <|> (tryDefault u).map (fun p => (none, p.1, p.2.1, p.2.2.1, p.2.2.2))

/-- The first alternation branch `(enum)\s+\(([^)]+)\)`. -/
def enumBranchMatch (s : List Char) : Option (String × String × List Char) :=
  let kw := s.take 4
  if ciEq kw "enum".toList then
    let t1 := s.drop 4
    let ws := t1.takeWhile jsWs
    if ws.isEmpty then none
    else
      match t1.drop ws.length with
      | '(' :: t2 =>
        let inner := t2.takeWhile (fun c => c ≠ ')')
        if inner.isEmpty then none
        else
          match t2.drop inner.length with
          | ')' :: t3 => some (⟨kw⟩, ⟨inner⟩, t3)
          | _ => none
      | _ => none
  else none

/-- The greedy `(?:\s+[^\s,]+)*` continuation of group 4 (each iteration
consumes at least two characters, so `rest.length` fuel suffices). -/
def typeTokenLoopF (fuel : Nat) (acc rest : List Char) : List Char × List Char :=
  match fuel with
  | 0 => (acc, rest)
  | f + 1 =>
    let ws := rest.takeWhile jsWs
    if ws.isEmpty then (acc, rest)
    else
      let after := rest.drop ws.length
      let tok := after.takeWhile isTok
      if tok.isEmpty then (acc, rest)
      else typeTokenLoopF f (acc ++ ws ++ tok) (after.drop tok.length)

def typeTokenLoop (acc rest : List Char) : List Char × List Char :=
  typeTokenLoopF rest.length acc rest

/-- The second alternation branch
`([^\s,]+(?:\s+[^\s,]+)*)\s*(?:\(([^)]+)\))?`.  (The parenthesis group is
kept for fidelity; the greedy token run makes it unreachable.) -/
def typeBranch (s : List Char) : Option (String × Option String × List Char) :=
  let tok := s.takeWhile isTok
  if tok.isEmpty then none
  else
    let (g4, rest) := typeTokenLoop tok (s.drop tok.length)
    let ws := rest.takeWhile jsWs
    let rest1 := rest.drop ws.length
    match rest1 with
    | '(' :: t2 =>
      let inner := t2.takeWhile (fun c => c ≠ ')')
      if inner.isEmpty then some (⟨g4⟩, none, rest1)
      else
        match t2.drop inner.length with
        | ')' :: t3 => some (⟨g4⟩, some ⟨inner⟩, t3)
        | _ => some (⟨g4⟩, none, rest1)
    | _ => some (⟨g4⟩, none, rest1)

/-- One attempted `columnRegex` match anchored at the head of `s`; returns
the captures and the unconsumed suffix. -/
def matchColumnAt (s : List Char) : Option (RawCol × List Char) :=
  let s1 := match s with
    | c :: t => if c = '`' || c = '"' || c = '\'' then t else s
    | [] => s
  let name := s1.takeWhile jsWord
  if name.isEmpty then none
  else
    let s2 := s1.drop name.length
    let s3 := match s2 with
      | c :: t => if c = '`' || c = '"' || c = '\'' then t else s2
      | [] => s2
    let ws := s3.takeWhile jsWs
    if ws.isEmpty then none
    else
      let s4 := s3.drop ws.length
      let viaEnum : Option (RawCol × List Char) :=
        match enumBranchMatch s4 with
        | some (g2, g3, s5) =>
          match tryTail s5 with
          | some (g6, g7, g8, g9, rest) =>
            some ({ fullMatch := ⟨s.take (s.length - rest.length)⟩,
                    fieldName := ⟨name⟩, g2 := some g2, g3 := some g3,
                    g4 := none, g5 := none, g6 := g6, g7 := g7,
                    g8 := g8, g9 := g9 }, rest)
          | none => none
        | none => none
      viaEnum <|>
        (match typeBranch s4 with
         | some (g4, g5, s5) =>
           match tryTail s5 with
           | some (g6, g7, g8, g9, rest) =>
             some ({ fullMatch := ⟨s.take (s.length - rest.length)⟩,
                     fieldName := ⟨name⟩, g2 := none, g3 := none,
                     g4 := some g4, g5 := g5, g6 := g6, g7 := g7,
                     g8 := g8, g9 := g9 }, rest)
           | none => none
         | none => none)

/-- The `while ((match = columnRegex.exec(columnsStr)) !== null)` loop:
leftmost matches, resuming after each match.  (Every match consumes at
least the column name and one whitespace character, so the guard on the
recursive call always holds.) -/
def colScanF (fuel : Nat) (s : List Char) : List RawCol :=
  match fuel with
  | 0 => []
  | f + 1 =>
    match matchColumnAt s with
    | some (rc, rest) => rc :: colScanF f rest
    | none =>
      match s with
      | [] => []
      | _ :: t => colScanF f t

def colScan (s : List Char) : List RawCol :=
  colScanF s.length s

end DF2S

namespace DF2S

/-! ## The CREATE TABLE scanner (utils.ts line 362, `createTableMatch`)

Pattern (flag `i`):

  CREATE\s+TABLE\s+(?:IF\s+NOT\s+EXISTS\s+)?(?:`|"|')?(\w+)(?:`|"|')?
    \s*\(([^;]*(?:\([^)]*\)[^;]*)*)\)

`ctMatchTail`/`ctTailLoop` implement the backtracking search for
`(?:\([^)]*\)[^;]*)*\)`: the star tries one more (greedy) iteration
before stopping, and each inner `[^;]*` tries lengths from longest to
shortest. -/

def ctTailLoopHO (t2 : List Char) (b : Nat)
    (next : List Char → Option Nat) : Option Nat :=
  match next (t2.drop b) with
  | some n => some (b + n)
  | none =>
    match b with
    | 0 => none
    | b' + 1 => ctTailLoopHO t2 b' next

def ctMatchTail (fuel : Nat) (cs : List Char) : Option Nat :=
  match fuel with
  | 0 => none
  | fu + 1 =>
    (match cs with
     | '(' :: t =>
       let inner := t.takeWhile (fun c => c ≠ ')')
       (match t.drop inner.length with
        | ')' :: t2 =>
          (ctTailLoopHO t2 ((t2.takeWhile (fun c => c ≠ ';')).length)
            (fun cs' => ctMatchTail fu cs')).map
            (fun n => 2 + inner.length + n)
        | _ => none)
     | _ => none)
    <|>
    (match cs with
     | ')' :: _ => some 1
     | _ => none)

/-- The parenthesised body `([^;]*(?:\([^)]*\)[^;]*)*)\)` starting right
after the opening parenthesis: returns (group 2, suffix after the closing
parenthesis), trying `[^;]*` lengths from longest to shortest. -/
def ctBodyLoop (rest : List Char) (a : Nat) : Option (List Char × List Char) :=
  match ctMatchTail (rest.length + 1) (rest.drop a) with
  | some n => some (rest.take (a + n - 1), rest.drop (a + n))
  | none =>
    match a with
    | 0 => none
    | a' + 1 => ctBodyLoop rest a'

def ctBody (rest : List Char) : Option (List Char × List Char) :=
  ctBodyLoop rest ((rest.takeWhile (fun c => c ≠ ';')).length)

/-- `(?:`|"|')?(\w+)(?:`|"|')?\s*\(` followed by the body. -/
def matchCreateName (u : List Char) : Option (String × String) :=
  let u1 := match u with
    | c :: t => if c = '`' || c = '"' || c = '\'' then t else u
    | [] => u
  let name := u1.takeWhile jsWord
  if name.isEmpty then none
  else
    let u2 := u1.drop name.length
    let u3 := match u2 with
      | c :: t => if c = '`' || c = '"' || c = '\'' then t else u2
      | [] => u2
    let u4 := u3.dropWhile jsWs
    match u4 with
    | '(' :: t =>
      (ctBody t).map (fun p => (⟨name⟩, ⟨p.1⟩))
    | _ => none

/-- `IF\s+NOT\s+EXISTS\s+` (case-insensitive). -/
def ifNotExistsPfx (u : List Char) : Option (List Char) :=
  if ciEq (u.take 2) "if".toList then
    let t1 := u.drop 2
    let ws1 := t1.takeWhile jsWs
    if ws1.isEmpty then none else
    let t2 := t1.drop ws1.length
    if ciEq (t2.take 3) "not".toList then
      let t3 := t2.drop 3
      let ws2 := t3.takeWhile jsWs
      if ws2.isEmpty then none else
      let t4 := t3.drop ws2.length
      if ciEq (t4.take 6) "exists".toList then
        let t5 := t4.drop 6
        let ws3 := t5.takeWhile jsWs
        if ws3.isEmpty then none else some (t5.drop ws3.length)
      else none
    else none
  else none

/-- One attempted `createTableMatch` at the head of `s`. -/
def matchCreateAt (s : List Char) : Option (String × String) :=
  if ciEq (s.take 6) "create".toList then
    let t1 := s.drop 6
    let ws1 := t1.takeWhile jsWs
    if ws1.isEmpty then none else
    let t2 := t1.drop ws1.length
    if ciEq (t2.take 5) "table".toList then
      let t3 := t2.drop 5
      let ws2 := t3.takeWhile jsWs
      if ws2.isEmpty then none else
      let u := t3.drop ws2.length
      (match ifNotExistsPfx u with
       | some u2 => matchCreateName u2
       | none => none)
      <|> matchCreateName u
    else none
  else none

/-- `sql.match(createTableRegex)`: leftmost match. -/
def createTableScan (s : List Char) : Option (String × String) :=
  match s with
  | [] => none
  | _ :: t => matchCreateAt s <|> createTableScan t

/-- `/^(?:PRIMARY|FOREIGN|UNIQUE|CHECK|INDEX|KEY|CONSTRAINT)\s+/i.test(match[0])`
(utils.ts line 390): the skip test for table-level constraint entries. -/
def isConstraintEntry (fullMatch : String) : Bool :=
  let up := fullMatch.toList.map upChar
  ["PRIMARY", "FOREIGN", "UNIQUE", "CHECK", "INDEX", "KEY", "CONSTRAINT"].any
    (fun kw =>
      kw.toList.isPrefixOf up &&
        (match up.drop kw.length with
         | c :: _ => jsWs c
         | [] => false))

/-- Result of processing one retained column (the loop body of
`sqlToGoStruct`, utils.ts lines 395-465). -/
structure ColResult where
  line : String
  needsTime : Bool
  needsJson : Bool

/-- `isNullable` (utils.ts line 436): a column is nullable when its
constraint tail contains neither `NOT NULL` nor `PRIMARY KEY`. -/
def columnNullable (constraints : String) : Bool :=
  !(strContains constraints "NOT NULL") && !(strContains constraints "PRIMARY KEY")

/-- The pointer decision and rendering of `sqlToGoStruct` (utils.ts lines
458-460): `usePointer = options.usePointer || (isNullable &&
!goType.startsWith('*'))`, then `fieldType = usePointer ? '*'+goType :
goType`. -/
def renderFieldType (options : SQLOptions) (isNullable : Bool)
    (goType : String) : String :=
  let usePointer := options.usePointer ||
    (isNullable && !(strStartsWith goType "*"))
  if usePointer then "*" ++ goType else goType

/-- The loop body of `sqlToGoStruct` for one retained `columnRegex` match:
extracts the column data from the capture groups, computes nullability,
unsignedness and the Go type, and renders the struct field line. -/
def processColumn (rc : RawCol) (options : SQLOptions) : ColResult :=
  let fieldName := rc.fieldName
  let defaultValue := (rc.g7.getD "")
  -- `match[8] || match[9] || ''`: at most one of the two comment groups is
  -- captured, so concatenating their defaults is that chain of fallbacks.
  let comment := ((rc.g8.getD "") ++ (rc.g9.getD ""))
  let isEnumHit := match rc.g2 with
    | some e => (trimJs e.toList).map upChar = "ENUM".toList
    | none => false
  let sqlTypeBase : String :=
    if isEnumHit then "ENUM"
    else match rc.g4 with
      | some t => ⟨(trimJs t.toList).map upChar⟩
      | none => ""
  let sqlTypeParams : String :=
    if isEnumHit then match rc.g3 with
      | some p => ⟨trimJs p.toList⟩
      | none => ""
    else match rc.g5 with
      | some p => ⟨trimJs p.toList⟩
      | none => ""
  let enumValues := if isEnumHit then sqlTypeParams else ""
  let constraints : String := match rc.g6 with
    | some c => ⟨(trimJs c.toList).map upChar⟩
    | none => ""
  let isNullable := columnNullable constraints
  let isUnsigned := strContains constraints "UNSIGNED"
  let goType := getGoType sqlTypeBase options.dbType
    { isUnsigned := isUnsigned, typeParams := sqlTypeParams,
      isEnum := isEnumHit, enumValues := enumValues }
  let fieldType := renderFieldType options isNullable goType
  let tags := generateTags fieldName options comment defaultValue
  { line := "\t" ++ toPascalCase fieldName ++ " " ++ fieldType ++ " " ++ tags,
    needsTime := strContains goType "time.Time",
    needsJson := strContains goType "json.RawMessage" }

/-- `sqlToGoStruct` (utils.ts lines 358-485). -/
def sqlToGoStruct (sql : String) (options : SQLOptions) : Except String String :=
  match createTableScan sql.toList with
  | none => .error "Invalid SQL CREATE TABLE statement"
  | some (tableName, columnsStr) =>
    let structName := toPascalCase tableName
    let cols := (colScan columnsStr.toList).filter
      (fun rc => !(isConstraintEntry rc.fullMatch))
    let results := cols.map (fun rc => processColumn rc options)
    let importList := results.foldl (fun acc r =>
      let acc := if r.needsTime && !(acc.contains "time") then
        acc ++ ["time"] else acc
      if r.needsJson && !(acc.contains "encoding/json") then
        acc ++ ["encoding/json"] else acc) ([] : List String)
    let header := if importList.isEmpty then "" else
      "import (\n" ++
        String.join (importList.map (fun i => "\t\"" ++ i ++ "\"\n")) ++ ")\n\n"
    .ok (header ++ "type " ++ structName ++ " struct \x7b\n" ++
      String.intercalate "\n" (results.map (fun r => r.line)) ++ "\n\x7d")

end DF2S

namespace DF2S

/-! ## Protobuf conversion (utils.ts lines 564-639) -/

/-- The proto-to-Go type table of `protoTypeToGo` (utils.ts 620-637). -/
def protoTypeMap : List (String × String) :=
  [("double", "float64"), ("float", "float32"), ("int32", "int32"),
   ("int64", "int64"), ("uint32", "uint32"), ("uint64", "uint64"),
   ("sint32", "int32"), ("sint64", "int64"), ("fixed32", "uint32"),
   ("fixed64", "uint64"), ("sfixed32", "int32"), ("sfixed64", "int64"),
   ("bool", "bool"), ("string", "string"), ("bytes", "[]byte"),
   ("Timestamp", "time.Time")]

/-- The property names a plain JS object literal inherits from
`Object.prototype`: `typeMap[type]` for any of these yields the inherited
member (truthy), not `undefined`, so `typeMap[type] || type` does NOT fall
back to the token for them. -/
def objectProtoProps : List String :=
  ["constructor", "hasOwnProperty", "isPrototypeOf", "propertyIsEnumerable",
   "toLocaleString", "toString", "valueOf", "__defineGetter__",
   "__defineSetter__", "__lookupGetter__", "__lookupSetter__", "__proto__"]

/-- Modelled from the spec: the string coercion applied by the template
literal to the `Object.prototype` member that `typeMap[type]` yields for
an inherited property name (platform behaviour, not code under `src/`):
native functions stringify as `function <name>() { [native code] }` (the
`constructor` member is the `Object` function), and the `__proto__`
accessor yields `Object.prototype`, which stringifies as
`[object Object]`. -/
def inheritedMemberString (ty : String) : String :=
  if ty = "__proto__" then "[object Object]"
  else if ty = "constructor" then "function Object() \x7b [native code] \x7d"
  else "function " ++ ty ++ "() \x7b [native code] \x7d"

/-- `protoTypeToGo` (utils.ts lines 619-639): `typeMap[type] || type`.
`typeMap` is a plain object literal, so the property read walks the
prototype chain: an own entry wins, otherwise a property name inherited
from `Object.prototype` yields the (truthy) inherited member — which the
rendering then coerces to a string — and only a name that is neither falls
back to the token itself. -/
def protoTypeToGo (ty : String) : String :=
  match protoTypeMap.lookup ty with
  | some goType => goType
  | none =>
    if objectProtoProps.contains ty then inheritedMemberString ty
    else ty

/-- `/message\s+(\w+)/` anchored at the head of `s` (case-sensitive). -/
def matchMessageAt (s : List Char) : Option String :=
  if "message".toList.isPrefixOf s then
    let t := s.drop 7
    let ws := t.takeWhile jsWs
    if ws.isEmpty then none
    else
      let name := (t.drop ws.length).takeWhile jsWord
      if name.isEmpty then none else some ⟨name⟩
  else none

/-- `line.match(/message\s+(\w+)/)`: leftmost match. -/
def messageScan (s : List Char) : Option String :=
  match s with
  | [] => none
  | _ :: t => matchMessageAt s <|> messageScan t

/-- `(\w+)\s+(\w+)\s*=\s*\d+;` (the field regex after the optional
`repeated` and its `\s*`). -/
def matchProtoFieldTail (u : List Char) : Option (String × String) :=
  let ty := u.takeWhile jsWord
  if ty.isEmpty then none
  else
    let u1 := u.drop ty.length
    let ws := u1.takeWhile jsWs
    if ws.isEmpty then none
    else
      let name := (u1.drop ws.length).takeWhile jsWord
      if name.isEmpty then none
      else
        let u2 := ((u1.drop ws.length).drop name.length).dropWhile jsWs
        match u2 with
        | '=' :: u3 =>
          let u4 := u3.dropWhile jsWs
          let digits := u4.takeWhile jsDigit
          if digits.isEmpty then none
          else
            match u4.drop digits.length with
            | ';' :: _ => some (⟨ty⟩, ⟨name⟩)
            | _ => none
        | _ => none

/-- `\s*(repeated)?\s*(\w+)\s+(\w+)\s*=\s*\d+;` anchored at the head of
`s`; if the `repeated` literal matches but the rest fails, the optional
group backtracks to absent. -/
def matchProtoFieldAt (s : List Char) : Option (Bool × String × String) :=
  let s1 := s.dropWhile jsWs
  (if "repeated".toList.isPrefixOf s1 then
    (matchProtoFieldTail ((s1.drop 8).dropWhile jsWs)).map (fun p => (true, p))
   else none)
  <|> (matchProtoFieldTail s1).map (fun p => (false, p))

/-- `line.match(fieldRegex)`: leftmost match. -/
def protoFieldScan (s : List Char) : Option (Bool × String × String) :=
  match s with
  | [] => none
  | _ :: t => matchProtoFieldAt s <|> protoFieldScan t

/-- Accumulator of the `protoToGo` line loop. -/
structure ProtoState where
  output : String
  currentMessage : String
  importsTime : Bool

/-- `protoToGo` (utils.ts lines 564-616). -/
def protoToGo (proto : String) : String :=
  let lines := (splitLinesJs proto.toList).map (fun l => (⟨l⟩ : String))
  let st := lines.foldl (fun (st : ProtoState) line =>
    if (trimJs line.toList).isEmpty || strContains line "syntax" ||
        strContains line "package" then st
    else if strContains line "message" then
      let st := if st.currentMessage ≠ "" then
        { st with output := st.output ++ "\x7d\n\n" } else st
      match messageScan line.toList with
      | some name =>
        let st := { st with currentMessage := name }
        { st with output := st.output ++ "type " ++ name ++ " struct \x7b\n" }
      | none => st
    else if st.currentMessage ≠ "" then
      match protoFieldScan line.toList with
      | some (rep, ty, name) =>
        let goType := protoTypeToGo ty
        let fieldName := capitalizeFirst name
        let fieldType := if rep then "[]" ++ goType else goType
        let st := { st with importsTime := st.importsTime || goType == "time.Time" }
        { st with output := st.output ++ "\t" ++ fieldName ++ " " ++ fieldType ++
            " `json:\"" ++ name ++ "\"`\n" }
      | none => st
    else st) ⟨"", "", false⟩
  let out := if st.currentMessage ≠ "" then st.output ++ "\x7d\n" else st.output
  if st.importsTime then "import (\n\t\"time\"\n)\n\n" ++ out else out

/-! ## XML conversion (utils.ts lines 642-696) -/

/-- `inferTypeFromValue` (utils.ts lines 690-696): boolean literal, then
`/^\d+$/`, then `/^\d*\.\d+$/`, then the ISO timestamp prefix
`/^\d{4}-\d{2}-\d{2}T\d{2}:\d{2}:\d{2}/`, else string. -/
def inferTypeFromValue (value : String) : String :=
  let l := value.toList
  if value = "true" || value = "false" then "bool"
  else if !l.isEmpty && l.all jsDigit then "int"
  else if (let intPart := l.takeWhile jsDigit
           match l.drop intPart.length with
           | '.' :: frac => !frac.isEmpty && frac.all jsDigit
           | _ => false) then "float64"
  else if (match l with
    | y1 :: y2 :: y3 :: y4 :: '-' :: m1 :: m2 :: '-' :: d1 :: d2 :: 'T' ::
        h1 :: h2 :: ':' :: mi1 :: mi2 :: ':' :: s1 :: s2 :: _ =>
      [y1, y2, y3, y4, m1, m2, d1, d2, h1, h2, mi1, mi2, s1, s2].all jsDigit
    | _ => false) then "time.Time"
  else "string"

/-- `xml.replace(/<\?xml[^>]+\?>/, '')`: remove the first XML declaration
(a `<?xml` followed by at least one non-`>` character and ending at the
first `>` provided the character before it is `?`). -/
def stripXmlDecl (s : List Char) : List Char :=
  match s with
  | [] => []
  | c :: t =>
    if "<?xml".toList.isPrefixOf (c :: t) then
      let after := (c :: t).drop 5
      let run := after.takeWhile (fun x => x ≠ '>')
      if run.length ≥ 2 && run.getLast? = some '?' &&
          after.drop run.length ≠ [] then
        after.drop (run.length + 1)
      else c :: stripXmlDecl t
    else c :: stripXmlDecl t

/-- `/<([^\s>]+)/` anchored at the head. -/
def matchRootAt (s : List Char) : Option String :=
  match s with
  | '<' :: t =>
    let name := t.takeWhile (fun c => !(jsWs c) && c ≠ '>')
    if name.isEmpty then none else some ⟨name⟩
  | _ => none

/-- `xml.match(/<([^\s>]+)/)`: leftmost match (the root element name). -/
def rootScan (s : List Char) : Option String :=
  match s with
  | [] => none
  | _ :: t => matchRootAt s <|> rootScan t

/-- `/<([^>/]+)>([^<]*)<\/\1>/` anchored at the head of `s`: a simple
paired element; the tag name excludes `>` and `/`, the value excludes `<`,
and the close tag must repeat the name (backreference `\1`). -/
def matchPairAt (s : List Char) : Option (String × String × List Char) :=
  match s with
  | '<' :: t =>
    let name := t.takeWhile (fun c => c ≠ '>' && c ≠ '/')
    if name.isEmpty then none
    else
      match t.drop name.length with
      | '>' :: t2 =>
        let value := t2.takeWhile (fun c => c ≠ '<')
        let t3 := t2.drop value.length
        if ("</".toList ++ name ++ ['>']).isPrefixOf t3 then
          some (⟨name⟩, ⟨value⟩, t3.drop (name.length + 3))
        else none
      | _ => none
  | _ => none

/-- The `while ((match = fieldRegex.exec(xml)) !== null)` loop: all
leftmost non-overlapping matches of the paired-element pattern. -/
def pairScanF (fuel : Nat) (s : List Char) : List (String × String) :=
  match fuel with
  | 0 => []
  | f + 1 =>
    match matchPairAt s with
    | some (name, value, rest) => (name, value) :: pairScanF f rest
    | none =>
      match s with
      | [] => []
      | _ :: t => pairScanF f t

def pairScan (s : List Char) : List (String × String) :=
  pairScanF s.length s

/-- Association lookup (the `fields.get(fieldName)` of the JS `Map`). -/
def assocFind (name : String) : List (String × (String × Bool)) →
    Option (String × Bool)
  | [] => none
  | (k, v) :: t => if name = k then some v else assocFind name t

/-- The in-place mutation `existingField.isArray = true` applied to the
entry with the matching tag name. -/
def setArray (k : String) (e : String × (String × Bool)) :
    String × (String × Bool) :=
  if e.1 = k then (e.1, (e.2.1, true)) else e

/-- One iteration of the `fields` map construction of `xmlToGo` (utils.ts
lines 662-674): an existing entry has its array mark set, a new tag is
appended with its inferred type. -/
def collectStep (acc : List (String × (String × Bool)))
    (m : String × String) : List (String × (String × Bool)) :=
  if (assocFind m.1 acc).isSome then acc.map (setArray m.1)
  else acc ++ [(m.1, (inferTypeFromValue m.2, false))]

/-- The `fields` map of `xmlToGo`: first occurrence fixes the inferred
type, any further occurrence marks the field as an array (utils.ts lines
658-674).  Entries keep first-insertion order, as a JS `Map` does. -/
def collectFields (ms : List (String × String)) :
    List (String × (String × Bool)) :=
  ms.foldl collectStep []

/-- `xmlToGo` (utils.ts lines 642-688). -/
def xmlToGo (xml : String) : Except String String :=
  let stripped := trimJs (stripXmlDecl xml.toList)
  match rootScan stripped with
  | none => .error "XML parse error: no root element"
  | some rootName =>
    let structName := toPascalCase rootName
    let fields := collectFields (pairScan stripped)
    let fieldLines := fields.map (fun f =>
      let goFieldName := toPascalCase f.1
      let goFieldType := if f.2.2 then "[]" ++ f.2.1 else f.2.1
      "\t" ++ goFieldName ++ " " ++ goFieldType ++ " `xml:\"" ++ f.1 ++
        "\" json:\"" ++ f.1 ++ "\"`\n")
    .ok ("type " ++ structName ++ " struct \x7b\n" ++
      String.join fieldLines ++ "\x7d\n")

/-! ## CSV conversion (utils.ts lines 699-719) -/

/-- `csvToGo` (utils.ts lines 699-719).  When the data row is shorter than
the header row, `firstRow[i]` is `undefined` in JS and every test in
`inferTypeFromValue` coerces it to the string `"undefined"`, which infers
to `string`. -/
def csvToGo (csv : String) : Except String String :=
  let lines := (splitLinesJs csv.toList).filter (fun l => !(trimJs l).isEmpty)
  if lines.length < 2 then
    .error "CSV needs a header line and a data line"
  else
    let headers := (splitChar ',' (lines.headI)).map
      (fun h => (⟨trimJs h⟩ : String))
    let firstRow := (splitChar ',' ((lines.drop 1).headI)).map
      (fun v => (⟨trimJs v⟩ : String))
    let fieldLines := (List.range headers.length).map (fun i =>
      let header := headers.getD i ""
      let fieldName := capitalizeFirst header
      let value := firstRow.getD i "undefined"
      let ty := inferTypeFromValue value
      "\t" ++ fieldName ++ " " ++ ty ++ " `json:\"" ++ header ++ "\"`\n")
    .ok ("type AutoGen struct \x7b\n" ++ String.join fieldLines ++ "\x7d\n")

end DF2S

namespace DF2S

/-! ## Parsing JSON/YAML input

`convertToGo` and `validateFormat` call the platform builtins `JSON.parse`
and `YAML.parse`, which are library code not part of this repository. -/

/-- JSON whitespace. -/
def jsonWsCh (c : Char) : Bool :=
  c = ' ' || c = '\t' || c = '\n' || c = '\r'

/-- Hex digit value, by code point. -/
def hexVal (c : Char) : Option Nat :=
  let n := c.toNat
  if 48 ≤ n && n ≤ 57 then some (n - 48)
  else if 97 ≤ n && n ≤ 102 then some (n - 87)
  else if 65 ≤ n && n ≤ 70 then some (n - 55)
  else none

/-- The one-character JSON string escapes. -/
def simpleEsc (e : Char) : Option Char :=
  match e with
  | '"' => some '"'
  | '\\' => some '\\'
  | '/' => some '/'
  | 'b' => some '\x08'
  | 'f' => some '\x0c'
  | 'n' => some '\n'
  | 'r' => some '\r'
  | 't' => some '\t'
  | _ => none

/-- JSON string body after the opening quote: characters up to the closing
quote, with the standard escapes. -/
def parseJStr (l : List Char) : Option (String × List Char) :=
  match l with
  | [] => none
  | '"' :: t => some ("", t)
  | '\\' :: 'u' :: h1 :: h2 :: h3 :: h4 :: t =>
    (match hexVal h1, hexVal h2, hexVal h3, hexVal h4 with
     | some a, some b, some c, some d =>
       (parseJStr t).map
         (fun p => (⟨Char.ofNat (((a * 16 + b) * 16 + c) * 16 + d) :: p.1.toList⟩, p.2))
     | _, _, _, _ => none)
  | '\\' :: e :: t =>
    (match simpleEsc e with
     | some c => (parseJStr t).map (fun p => (⟨c :: p.1.toList⟩, p.2))
     | none => none)
  | c :: t => (parseJStr t).map (fun p => (⟨c :: p.1.toList⟩, p.2))

/-- Digits of a list to a natural number. -/
def digitsToNat (l : List Char) : Nat :=
  l.foldl (fun acc c => acc * 10 + (c.toNat - '0'.toNat)) 0

/-- JSON number literal starting at `l`. -/
def parseJNum (l : List Char) : Option (Rat × List Char) :=
  let (negative, l1) := match l with
    | '-' :: t => (true, t)
    | _ => (false, l)
  let intPart := l1.takeWhile jsDigit
  if intPart.isEmpty then none
  else
    let l2 := l1.drop intPart.length
    let (fracPart, l3) := match l2 with
      | '.' :: t =>
        let f := t.takeWhile jsDigit
        if f.isEmpty then ([], l2) else (f, t.drop f.length)
      | _ => ([], l2)
    let (expVal, l4) : Int × List Char := match l3 with
      | e :: t =>
        if e = 'e' || e = 'E' then
          let (esign, t1) : Int × List Char := match t with
            | '-' :: t' => (-1, t')
            | '+' :: t' => (1, t')
            | _ => (1, t)
          let ed := t1.takeWhile jsDigit
          if ed.isEmpty then (0, l3)
          else (esign * (digitsToNat ed : Int), t1.drop ed.length)
        else (0, l3)
      | [] => (0, l3)
    let mantissa : Int := digitsToNat (intPart ++ fracPart)
    let signed : Int := if negative then -mantissa else mantissa
    let q : Rat := (signed : Rat) * (10 : Rat) ^ (expVal - (fracPart.length : Int))
    some (q, l4)

/-- Comma-separated array elements (at least one), parsing each element
with `pv`. -/
def parseElemsF (fuel : Nat)
    (pv : Heap → List Char → Option (JVal × Heap × List Char))
    (heap : Heap) (l : List Char) : Option (List JVal × Heap × List Char) :=
  match fuel with
  | 0 => none
  | f + 1 =>
    match pv heap l with
    | none => none
    | some (v, heap1, r1) =>
      let r2 := r1.dropWhile jsonWsCh
      match r2 with
      | ']' :: r3 => some ([v], heap1, r3)
      | ',' :: r3 =>
        (parseElemsF f pv heap1 r3).map (fun p => (v :: p.1, p.2.1, p.2.2))
      | _ => none

/-- Comma-separated object members (at least one), parsing each value with
`pv`. -/
def parseMembersF (fuel : Nat)
    (pv : Heap → List Char → Option (JVal × Heap × List Char))
    (heap : Heap) (l : List Char) :
    Option (List (String × JVal) × Heap × List Char) :=
  match fuel with
  | 0 => none
  | f + 1 =>
    let l1 := l.dropWhile jsonWsCh
    match l1 with
    | '"' :: t =>
      (match parseJStr t with
       | none => none
       | some (key, r1) =>
         let r2 := r1.dropWhile jsonWsCh
         match r2 with
         | ':' :: r3 =>
           (match pv heap r3 with
            | none => none
            | some (v, heap1, r4) =>
              let r5 := r4.dropWhile jsonWsCh
              match r5 with
              | '\x7d' :: r6 => some ([(key, v)], heap1, r6)
              | ',' :: r6 =>
                (parseMembersF f pv heap1 r6).map
                  (fun p => ((key, v) :: p.1, p.2.1, p.2.2))
              | _ => none)
         | _ => none)
    | _ => none

/-- JSON value, with plain objects allocated into the heap. -/
def parseJVal (fuel : Nat) (heap : Heap) (l : List Char) :
    Option (JVal × Heap × List Char) :=
  match fuel with
  | 0 => none
  | f + 1 =>
    let l := l.dropWhile jsonWsCh
    match l with
    | '"' :: t => (parseJStr t).map (fun p => (.jstr p.1, heap, p.2))
    | '[' :: t =>
      let t1 := t.dropWhile jsonWsCh
      (match t1 with
       | ']' :: r => some (.jarr [], heap, r)
       | _ => (parseElemsF f (fun h c => parseJVal f h c) heap t).map
           (fun p => (.jarr p.1, p.2.1, p.2.2)))
    | '\x7b' :: t =>
      let t1 := t.dropWhile jsonWsCh
      (match t1 with
       | '\x7d' :: r => some (.jobj heap.length, heap ++ [[]], r)
       | _ => (parseMembersF f (fun h c => parseJVal f h c) heap t).map
           (fun p => (.jobj p.2.1.length, p.2.1 ++ [p.1], p.2.2)))
    | _ =>
      if "true".toList.isPrefixOf l then some (.jbool true, heap, l.drop 4)
      else if "false".toList.isPrefixOf l then some (.jbool false, heap, l.drop 5)
      else if "null".toList.isPrefixOf l then some (.jnull, heap, l.drop 4)
      else (parseJNum l).map (fun p => (.jnum p.1, heap, p.2))

/-- Modelled from the spec: the `JSON.parse` builtin (platform library
code, not under `src/`): parse a JSON document, allocating each object
literal a fresh heap identity; the whole input (up to trailing
whitespace) must be consumed. -/
def jsonParse (s : String) : Option (Heap × JVal) :=
  match parseJVal (2 * s.length + 4) [] s.toList with
  | some (v, heap, rest) =>
    if (rest.dropWhile jsonWsCh).isEmpty then some (heap, v) else none
  | none => none

/-- Modelled from the spec: the `YAML.parse` builtin (library code, not
under `src/`), modelled on the JSON-compatible subset of YAML documents
(YAML is a superset of JSON); only parse success and the resulting value
tree are relied upon. -/
def yamlParse (s : String) : Option (Heap × JVal) :=
  jsonParse s

/-- Input kinds accepted by `convertToGo` / `validateFormat`. -/
inductive InputType where
  | json
  | yaml
  | sql
  | proto
  | xml
  | csv
deriving DecidableEq

/-- `convertToGo` (utils.ts lines 722-739).  A thrown JS exception is an
`Except.error`; the non-null assertion `options!` on the `sql` branch is
modelled as an error when the options are absent. -/
def convertToGo (input : String) (ty : InputType)
    (options : Option SQLOptions := none) : Except String String :=
  match ty with
  | .json =>
    match jsonParse input with
    | none => .error "JSON parse error"
    | some (heap, v) => .ok (jsonToGo heap v "AutoGen")
  | .yaml =>
    match yamlParse input with
    | none => .error "YAML parse error"
    | some (heap, v) => .ok (jsonToGo heap v "AutoGen")
  | .sql =>
    match options with
    | none => .error "missing SQL options"
    | some o => sqlToGoStruct input o
  | .proto => .ok (protoToGo input)
  | .xml => xmlToGo input
  | .csv => csvToGo input

/-! ## `validateFormat` (utils.ts lines 916-1024), per input kind -/

/-- The `json` branch of `validateFormat`: non-blank input that
`JSON.parse` accepts. -/
def validateFormatJson (input : String) : Bool :=
  if (trimJs input.toList).isEmpty then false
  else (jsonParse input).isSome

/-- The `yaml` branch of `validateFormat`. -/
def validateFormatYaml (input : String) : Bool :=
  if (trimJs input.toList).isEmpty then false
  else (yamlParse input).isSome

/-- All matches of `/<\/?[^>]+>/g` (equivalently `<[^>]+>`: the optional
slash is part of the non-`>` run). -/
def xmlTagScanF (fuel : Nat) (s : List Char) : List String :=
  match fuel, s with
  | 0, _ => []
  | _, [] => []
  | f + 1, c :: t =>
    if c = '<' then
      let run := t.takeWhile (fun x => x ≠ '>')
      if !run.isEmpty && run.length < t.length then
        ("<" ++ (⟨run⟩ : String) ++ ">") :: xmlTagScanF f (t.drop (run.length + 1))
      else xmlTagScanF f t
    else xmlTagScanF f t

def xmlTagScan (s : List Char) : List String :=
  xmlTagScanF s.length s

/-- The tag-pairing loop of the `xml` branch of `validateFormat` (utils.ts
lines 996-1010): a close tag pops the stack and must contain the text of
the last-opened tag (angle brackets stripped) as a substring; a tag that
is not self-closing (`/>`) and not a declaration (`<?`) is pushed. -/
def validateTagLoop (tags : List String) (stack : List String) : Bool :=
  match tags with
  | [] => stack.isEmpty
  | tag :: rest =>
    if strStartsWith tag "</" then
      match stack with
      | [] => false
      | last :: stack' =>
        if strContains tag ⟨(last.toList.drop 1).dropLast⟩ then
          validateTagLoop rest stack'
        else false
    else if !(strEndsWith tag "/>") && !(strStartsWith tag "<?") then
      validateTagLoop rest (tag :: stack)
    else validateTagLoop rest stack

/-- The `xml` branch of `validateFormat` (utils.ts lines 985-1011). -/
def validateFormatXml (input : String) : Bool :=
  if (trimJs input.toList).isEmpty then false
  else
    let tr := trimJs input.toList
    if !("<?xml".toList.isPrefixOf tr) && !("<".toList.isPrefixOf tr) then
      false
    else
      let tags := xmlTagScan input.toList
      if tags.isEmpty then false
      else validateTagLoop tags []

end DF2S

namespace DF2S

/-! ## Supporting lemmas -/

theorem trimJs_eq_nil_iff (l : List Char) :
    trimJs l = [] ↔ ∀ c ∈ l, jsWs c = true := by
  unfold trimJs
  rw [List.reverse_eq_nil_iff, List.dropWhile_eq_nil_iff]
  constructor
  · intro h c hc
    rcases List.mem_append.mp
        ((List.takeWhile_append_dropWhile (p := jsWs) (l := l)) ▸ hc) with
      h1 | h2
    · exact List.mem_takeWhile_imp h1
    · exact h c (List.mem_reverse.mpr h2)
  · intro h c hc
    exact h c ((List.dropWhile_sublist jsWs).subset (List.mem_reverse.mp hc))

end DF2S

namespace DF2S

theorem parseJVal_all_ws (fuel : Nat) (heap : Heap) (l : List Char)
    (h : ∀ c ∈ l, jsWs c = true) : parseJVal fuel heap l = none := by
  cases fuel with
  | zero => rfl
  | succ f =>
    have hsub : ∀ c ∈ l.dropWhile jsonWsCh, jsWs c = true :=
      fun c hc => h c ((List.dropWhile_sublist jsonWsCh).subset hc)
    cases hd : l.dropWhile jsonWsCh with
    | nil =>
      simp [parseJVal, hd, List.isPrefixOf, parseJNum, jsDigit]
    | cons c t =>
      have hcw : jsWs c = true := hsub c (hd ▸ List.mem_cons_self _ _)
      have hcn : jsonWsCh c = false := by
        have := List.dropWhile_get_zero_not jsonWsCh l (by simp [hd])
        simpa [hd] using this
      have hc : c = '\x0b' ∨ c = '\x0c' := by
        simp only [jsWs, Bool.or_eq_true, decide_eq_true_eq] at hcw
        simp only [jsonWsCh, Bool.or_eq_false_iff, decide_eq_false_iff_not] at hcn
        tauto
      rcases hc with rfl | rfl <;>
        simp [parseJVal, hd, List.isPrefixOf, parseJNum, jsDigit]

theorem jsonParse_some_nonblank (input : String) (x : Heap × JVal)
    (h : jsonParse input = some x) : (trimJs input.toList).isEmpty = false := by
  by_contra hne
  have hnil : trimJs input.toList = [] := by
    simpa [List.isEmpty_iff] using hne
  have hall := (trimJs_eq_nil_iff _).mp hnil
  have hnone := parseJVal_all_ws (2 * input.length + 4) [] input.toList hall
  unfold jsonParse at h
  rw [hnone] at h
  exact Option.noConfusion h

end DF2S

namespace DF2S

theorem assocFind_map_setTrue (k name : String) :
    ∀ (acc : List (String × (String × Bool))),
      assocFind name (acc.map (setArray k)) =
        (assocFind name acc).map (fun p => if k = name then (p.1, true) else p) := by
  intro acc
  induction acc with
  | nil => simp [assocFind]
  | cons e t ih =>
    obtain ⟨ek, ev⟩ := e
    simp only [List.map_cons]
    by_cases hek : ek = k <;> by_cases hne : name = ek
    · subst hek
      subst hne
      rw [show setArray name (name, ev) = (name, (ev.1, true)) from by
        simp [setArray]]
      simp [assocFind, ih]
    · subst hek
      have hkn : ¬ ek = name := fun h => hne h.symm
      rw [show setArray ek (ek, ev) = (ek, (ev.1, true)) from by
        simp [setArray]]
      simp [assocFind, hne, hkn, ih]
    · subst hne
      have hkn : ¬ k = name := fun h => hek (h.symm)
      rw [show setArray k (name, ev) = (name, ev) from by
        simp [setArray, hek]]
      simp [assocFind, hkn, ih]
    · rw [show setArray k (ek, ev) = (ek, ev) from by
        simp [setArray, hek]]
      simp [assocFind, hne, ih]

theorem assocFind_append_single (k name : String) (v : String × Bool) :
    ∀ (acc : List (String × (String × Bool))),
      assocFind name (acc ++ [(k, v)]) =
        match assocFind name acc with
        | some p => some p
        | none => if name = k then some v else none := by
  intro acc
  induction acc with
  | nil => simp [assocFind]
  | cons e t ih =>
    obtain ⟨ek, ev⟩ := e
    by_cases hne : name = ek <;> simp [assocFind, hne, ih]

theorem any_eq_two_le_countP (name : String) (ms : List (String × String)) :
    ms.any (fun m => m.1 == name) =
      decide (2 ≤ ms.countP (fun m' => m'.1 == name) + 1) := by
  rw [Bool.eq_iff_iff]
  simp only [List.any_eq_true, decide_eq_true_eq]
  constructor
  · intro h
    have := List.countP_pos_iff.mpr h
    omega
  · intro h
    exact List.countP_pos_iff.mp (by omega)

theorem collect_lookup_aux (name : String) :
    ∀ (ms : List (String × String)) (acc : List (String × (String × Bool))),
      assocFind name (ms.foldl collectStep acc) =
        match assocFind name acc with
        | some p => some (p.1, p.2 || ms.any (fun m => m.1 == name))
        | none =>
          match ms.find? (fun m => m.1 == name) with
          | none => none
          | some m => some (inferTypeFromValue m.2,
              decide (2 ≤ ms.countP (fun m' => m'.1 == name)))
  | [], acc => by
    cases hacc : assocFind name acc <;> simp [hacc]
  | m :: ms, acc => by
    rw [List.foldl_cons, collect_lookup_aux name ms (collectStep acc m)]
    unfold collectStep
    by_cases hmem : (assocFind m.1 acc).isSome
    · rw [if_pos hmem, assocFind_map_setTrue]
      cases hacc : assocFind name acc with
      | none =>
        by_cases hm1 : m.1 = name
        · rw [hm1, hacc] at hmem
          simp at hmem
        · have hb : (m.1 == name) = false := by simp [hm1]
          simp [hacc, hb, List.find?_cons, List.countP_cons]
      | some p =>
        by_cases hm1 : m.1 = name
        · subst hm1
          simp [hacc]
        · have hb : (m.1 == name) = false := by simp [hm1]
          simp [hacc, hb, hm1]
    · rw [if_neg hmem, assocFind_append_single]
      cases hacc : assocFind name acc with
      | some p =>
        have hm1 : ¬ m.1 = name := by
          intro h
          rw [h, hacc] at hmem
          simp at hmem
        have hb : (m.1 == name) = false := by simp [hm1]
        simp [hacc, hm1, hb]
      | none =>
        by_cases hm1 : m.1 = name
        · subst hm1
          simp [hacc, List.find?_cons, List.countP_cons,
            any_eq_two_le_countP]
        · have hb : (m.1 == name) = false := by simp [hm1]
          have hnm : ¬ name = m.1 := fun h => hm1 h.symm
          simp [hacc, hm1, hnm, hb, List.find?_cons, List.countP_cons]

end DF2S

namespace DF2S

/-- A close tag in the `validateFormat` xml loop. -/
def isCloseTag (tag : String) : Bool :=
  strStartsWith tag "</"

/-- A tag the `validateFormat` xml loop pushes: neither a close tag, nor
self-closing, nor a declaration. -/
def isOpenTag (tag : String) : Bool :=
  !(strStartsWith tag "</") && !(strEndsWith tag "/>") &&
    !(strStartsWith tag "<?")

theorem validateTagLoop_balance :
    ∀ (tags : List String) (stack : List String),
      validateTagLoop tags stack = true →
      tags.countP isOpenTag + stack.length = tags.countP isCloseTag := by
  intro tags
  induction tags with
  | nil =>
    intro stack h
    simp only [validateTagLoop, List.isEmpty_iff] at h
    simp [h]
  | cons tag rest ih =>
    intro stack h
    by_cases hclose : strStartsWith tag "</"
    · cases stack with
      | nil => simp [validateTagLoop, hclose] at h
      | cons last stack' =>
        simp only [validateTagLoop, hclose, if_true] at h
        by_cases hsub : strContains tag ⟨(last.toList.drop 1).dropLast⟩
        · rw [if_pos hsub] at h
          have hb := ih stack' h
          have ho : isOpenTag tag = false := by simp [isOpenTag, hclose]
          have hc : isCloseTag tag = true := hclose
          simp only [List.countP_cons, ho, hc, List.length_cons,
            if_false, if_true, Bool.false_eq_true] at hb ⊢
          omega
        · rw [if_neg hsub] at h
          exact absurd h (by simp)
    · by_cases hpush : !(strEndsWith tag "/>") && !(strStartsWith tag "<?")
      · simp only [validateTagLoop, hclose, if_false, hpush, if_true,
          Bool.false_eq_true] at h
        have hb := ih (tag :: stack) h
        have ho : isOpenTag tag = true := by
          simp only [isOpenTag, hclose, Bool.not_false, Bool.true_and]
          exact hpush
        have hc : isCloseTag tag = false := by simp [isCloseTag, hclose]
        simp only [List.countP_cons, ho, hc, List.length_cons,
          if_false, if_true, Bool.false_eq_true] at hb ⊢
        omega
      · simp only [validateTagLoop, hclose, if_false, hpush,
          Bool.false_eq_true] at h
        have hb := ih stack h
        have ho : isOpenTag tag = false := by
          simp only [isOpenTag, hclose, Bool.not_false, Bool.true_and]
          exact Bool.eq_false_iff.mpr hpush
        have hc : isCloseTag tag = false := by simp [isCloseTag, hclose]
        simp only [List.countP_cons, ho, hc, if_false,
          Bool.false_eq_true] at hb ⊢
        omega

/-- Scalars: the JS values with `typeof v !== "object"` together with
`null` (the values on which `jsonToGo` returns the empty string). -/
def isScalar (v : JVal) : Bool :=
  match v with
  | .jnull => true
  | .jbool _ => true
  | .jnum _ => true
  | .jstr _ => true
  | _ => false

end DF2S

namespace DF2S

/-! ## Claim theorems -/

theorem strStartsWith_star_append (s : String) :
    strStartsWith ("*" ++ s) "*" = true := by
  simp [strStartsWith, String.toList, String.data_append, List.isPrefixOf]

/-- Claim C1 (code bug): the spec says `CREATE TABLE t (n INT UNSIGNED)`
under the mysql dialect renders column `n` with the unsigned Go type
`uint`, `INT` alone with `int`.  The code renders `*int` for BOTH inputs:
the greedy type-token group of `columnRegex` swallows `UNSIGNED` into the
type string, so the constraint tail parses empty and `isUnsigned` is never
set.  The third conjunct shows the intended (dead) unsigned machinery of
`getGoType`, which would produce `uint` had the constraint tail been
parsed as the spec describes. -/
theorem claim1_unsigned_dropped :
    sqlToGoStruct "CREATE TABLE t (n INT UNSIGNED)"
        ⟨.mysql, .db, false⟩ =
      .ok "type T struct \x7b\n\tN *int `json:\"n\" yaml:\"n\" db:\"n\"`\n\x7d" ∧
    sqlToGoStruct "CREATE TABLE t (n INT)" ⟨.mysql, .db, false⟩ =
      .ok "type T struct \x7b\n\tN *int `json:\"n\" yaml:\"n\" db:\"n\"`\n\x7d" ∧
    getGoType "INT" .mysql { isUnsigned := true } = "uint" :=
  ⟨rfl, rfl, rfl⟩

/-- Claim C2 (confirmed): type inference and struct generation terminate
on every representable value graph, cyclic object references included —
the fuel bound used by `jsonToGo` always suffices, producing a finite
output — and an object reference already in the visited set yields the
"unknown" kind `interface{}` (as a pointer) without recursing and without
growing the set. -/
theorem claim2_inference_terminates (heap : Heap) (v : JVal)
    (structName : String) (seen : List Nat) (id : Nat) (hid : id ∈ seen) :
    jsonToGoF (goMeasure heap v seen + 1) heap v structName seen =
      some (jsonToGo heap v structName seen) ∧
    inferGoType (.jobj id) seen =
      (.mk "interface\x7b\x7d" true false none, seen) := by
  refine ⟨jsonToGo_total heap v structName seen, ?_⟩
  simp [inferGoType, hid]

/-- Witness for C2 at a concrete cyclic heap: object `0` whose field
`self` refers back to object `0`. -/
theorem claim2_witness :
    5 ∈ [5] ∧
    (jsonToGoF
        (goMeasure [[("self", JVal.jobj 0)]] (JVal.jobj 0) [5] + 1)
        [[("self", JVal.jobj 0)]] (JVal.jobj 0) "AutoGen" [5] =
      some (jsonToGo [[("self", JVal.jobj 0)]] (JVal.jobj 0) "AutoGen" [5]) ∧
     inferGoType (.jobj 5) [5] =
      (.mk "interface\x7b\x7d" true false none, [5])) :=
  ⟨by decide,
   claim2_inference_terminates [[("self", JVal.jobj 0)]] (JVal.jobj 0)
     "AutoGen" [5] 5 (by decide)⟩

/-- Claim C3 (confirmed): a JS number infers to the type the converter
uses for the signed-32-bit range (`int`, the type C1's gloss also calls
the 32-bit signed one) exactly when it is integral and between -2^31 and
2^31-1; to `int64` when integral outside that range; and to `float64`
when non-integral.  In particular 2147483647 infers to `int` and
2147483648 to `int64`. -/
theorem claim3_number_inference (q : Rat) (seen : List Nat) :
    (q.den = 1 → (-2147483648 : Rat) ≤ q → q ≤ (2147483647 : Rat) →
      ((inferGoType (.jnum q) seen).1).type = "int") ∧
    (q.den = 1 → ((2147483647 : Rat) < q ∨ q < (-2147483648 : Rat)) →
      ((inferGoType (.jnum q) seen).1).type = "int64") ∧
    (q.den ≠ 1 → ((inferGoType (.jnum q) seen).1).type = "float64") ∧
    ((inferGoType (.jnum 2147483647) seen).1).type = "int" ∧
    ((inferGoType (.jnum 2147483648) seen).1).type = "int64" := by
  refine ⟨?_, ?_, ?_, ?_, ?_⟩
  · intro hden hlo hhi
    have hno : ¬((2147483647 : Rat) < q ∨ q < (-2147483648 : Rat)) := by
      push_neg
      exact ⟨hhi, hlo⟩
    simp [inferGoType, hden, hno, GoType.type]
  · intro hden hyes
    simp [inferGoType, hden, hyes, GoType.type]
  · intro hden
    simp [inferGoType, hden, GoType.type]
  · have hden : ((2147483647 : Rat)).den = 1 := by norm_num
    have h1 : ¬((2147483647 : Rat) < 2147483647) := by norm_num
    have h2 : ¬((2147483647 : Rat) < (-2147483648 : Rat)) := by norm_num
    simp [inferGoType, hden, h1, h2, GoType.type]
  · have hden : ((2147483648 : Rat)).den = 1 := by norm_num
    have h1 : ((2147483647 : Rat) < 2147483648) := by norm_num
    simp [inferGoType, hden, h1, GoType.type]

/-- Witness for C3 at the integral boundary value 2147483647. -/
theorem claim3_witness :
    (2147483647 : Rat).den = 1 ∧
    ((inferGoType (.jnum 2147483647) []).1).type = "int" := by
  refine ⟨by norm_num, ?_⟩
  exact (claim3_number_inference 2147483647 []).1 (by norm_num) (by norm_num)
    (by norm_num)

/-- Claim C4 (confirmed): for a retained SQL column, if the `usePointer`
option is set or the column is nullable, the rendered field type is
pointer-qualified.  `renderFieldType` is exactly the pointer logic of the
`sqlToGoStruct` loop body (used by `processColumn`); nullability is
`columnNullable`, the absence of `NOT NULL` and `PRIMARY KEY` from the
constraint tail. -/
theorem claim4_nullable_pointer (options : SQLOptions) (isNullable : Bool)
    (goType : String)
    (h : options.usePointer = true ∨ isNullable = true) :
    strStartsWith (renderFieldType options isNullable goType) "*" = true := by
  unfold renderFieldType
  cases hcond : (options.usePointer ||
      (isNullable && !(strStartsWith goType "*"))) with
  | true => simp [strStartsWith_star_append]
  | false =>
    simp only [Bool.or_eq_false_iff, Bool.and_eq_false_iff] at hcond
    obtain ⟨hup, hni⟩ := hcond
    rcases h with h | h
    · rw [hup] at h
      exact absurd h (by simp)
    · rcases hni with hni | hni
      · rw [h] at hni
        exact absurd hni (by simp)
      · have hsw : strStartsWith goType "*" = true := by
          cases hx : strStartsWith goType "*"
          · rw [hx] at hni
            simp at hni
          · rfl
        simp [hsw]

/-- Witness for C4: a nullable column with a non-pointer Go type. -/
theorem claim4_witness :
    ((⟨DBType.mysql, TagType.db, false⟩ : SQLOptions).usePointer = true ∨
      true = true) ∧
    strStartsWith (renderFieldType ⟨DBType.mysql, TagType.db, false⟩ true
      "int") "*" = true :=
  ⟨Or.inr rfl,
   claim4_nullable_pointer ⟨DBType.mysql, TagType.db, false⟩ true "int"
     (Or.inr rfl)⟩

/-- Claim C5 (code bug): the spec (and the code's own comment at
`getGoType`) say mysql `TINYINT(1)` maps to `bool`.  Through the pipeline
it maps to `*int`: `columnRegex` leaves `(1)` attached to the type token
(`TINYINT(1)`), the `TINYINT`+params special case never fires, and the
substring fallback hits the `INT` table entry.  The second conjunct shows
the special case working when `getGoType` is called as intended; the
third shows plain `TINYINT` mapping to `int8`. -/
theorem claim5_tinyint1_dropped :
    sqlToGoStruct "CREATE TABLE t (flag TINYINT(1))" ⟨.mysql, .db, false⟩ =
      .ok "type T struct \x7b\n\tFlag *int `json:\"flag\" yaml:\"flag\" db:\"flag\"`\n\x7d" ∧
    getGoType "TINYINT" .mysql { typeParams := "1" } = "bool" ∧
    sqlToGoStruct "CREATE TABLE t (flag TINYINT)" ⟨.mysql, .db, false⟩ =
      .ok "type T struct \x7b\n\tFlag *int8 `json:\"flag\" yaml:\"flag\" db:\"flag\"`\n\x7d" :=
  ⟨rfl, rfl, rfl⟩

/-- Claim C6 (confirmed): the XML input with two `<tag>` elements and one
`<tag2>` element produces a `[]string` field for `tag` and a plain
`string` field for `tag2`; in general a tag's entry in the field map
carries the type inferred from its first occurrence, and is marked as an
array exactly when the tag occurs at least twice. -/
theorem claim6_xml_array_marking :
    xmlToGo "<root><tag>a</tag><tag>a</tag><tag2>b</tag2></root>" =
      .ok ("type Root struct \x7b\n\tTag []string `xml:\"tag\" json:\"tag\"`\n\tTag2 string `xml:\"tag2\" json:\"tag2\"`\n\x7d\n") ∧
    ∀ (ms : List (String × String)) (name : String),
      assocFind name (collectFields ms) =
        match ms.find? (fun m => m.1 == name) with
        | none => none
        | some m => some (inferTypeFromValue m.2,
            decide (2 ≤ ms.countP (fun m' => m'.1 == name))) := by
  refine ⟨rfl, ?_⟩
  intro ms name
  unfold collectFields
  rw [collect_lookup_aux]
  simp [assocFind]

/-- Claim C7, counterexample: `<a></ab>` has a close tag whose name `ab`
differs from the open tag's name `a`, yet the validator accepts it — the
pop check only asks whether the close tag CONTAINS the last-opened tag's
bracket-stripped text as a substring (`"</ab>".includes("a")`). -/
theorem claim7_counterexample :
    validateFormatXml "<a></ab>" = true ∧
    xmlTagScan "<a></ab>".toList = ["<a>", "</ab>"] :=
  ⟨rfl, rfl⟩

/-- Claim C7, amended (proved): `validate` with kind xml accepts only
when the trimmed input starts with `<`, at least one tag is present, and
the tag sequence passes the stack discipline in which a close tag matches
the last-opened tag by substring containment (not name equality); in
particular every accepted input has equally many close tags and pushed
open tags, so no open tag is left unclosed. -/
theorem claim7_xml_validation (input : String)
    (h : validateFormatXml input = true) :
    strStartsWith (⟨trimJs input.toList⟩ : String) "<" = true ∧
    xmlTagScan input.toList ≠ [] ∧
    validateTagLoop (xmlTagScan input.toList) [] = true ∧
    (xmlTagScan input.toList).countP isOpenTag =
      (xmlTagScan input.toList).countP isCloseTag := by
  unfold validateFormatXml at h
  by_cases hempty : (trimJs input.toList).isEmpty
  · rw [if_pos hempty] at h
    exact absurd h (by simp)
  · rw [if_neg hempty] at h
    by_cases hpfx : (!("<?xml".toList.isPrefixOf (trimJs input.toList)) &&
        !("<".toList.isPrefixOf (trimJs input.toList))) = true
    · rw [if_pos hpfx] at h
      exact absurd h (by simp)
    · rw [if_neg hpfx] at h
      have hor : "<?xml".toList.isPrefixOf (trimJs input.toList) = true ∨
          "<".toList.isPrefixOf (trimJs input.toList) = true := by
        cases ha : "<?xml".toList.isPrefixOf (trimJs input.toList) with
        | true => exact Or.inl rfl
        | false =>
          cases hb : "<".toList.isPrefixOf (trimJs input.toList) with
          | true => exact Or.inr rfl
          | false =>
            exact absurd (by
              simp only [Bool.and_eq_true, Bool.not_eq_true']
              exact ⟨ha, hb⟩) hpfx
      have hlt : strStartsWith (⟨trimJs input.toList⟩ : String) "<" = true := by
        rcases hor with hx | hx
        · have hp := List.isPrefixOf_iff_prefix.mp hx
          have hq : ("<".toList) <+: ("<?xml".toList) := by decide
          exact List.isPrefixOf_iff_prefix.mpr (hq.trans hp)
        · exact hx
      by_cases htags : (xmlTagScan input.toList).isEmpty
      · rw [if_pos htags] at h
        exact absurd h (by simp)
      · rw [if_neg htags] at h
        refine ⟨hlt, by simpa [List.isEmpty_iff] using htags, h, ?_⟩
        have := validateTagLoop_balance (xmlTagScan input.toList) [] h
        simpa using this

/-- Witness for C7's amended theorem at a concrete accepted input. -/
theorem claim7_witness :
    validateFormatXml "<a></a>" = true ∧
    (strStartsWith (⟨trimJs "<a></a>".toList⟩ : String) "<" = true ∧
     xmlTagScan "<a></a>".toList ≠ [] ∧
     validateTagLoop (xmlTagScan "<a></a>".toList) [] = true ∧
     (xmlTagScan "<a></a>".toList).countP isOpenTag =
       (xmlTagScan "<a></a>".toList).countP isCloseTag) :=
  ⟨rfl, claim7_xml_validation "<a></a>" rfl⟩

/-- Claim C8 (confirmed): `convertToGo` is a pure function of its input
string, format kind and options — two invocations with equal arguments
return equal results (output or error); the shallow embedding has no
shared mutable state between calls, so determinism is structural. -/
theorem claim8_deterministic (input1 input2 : String) (ty1 ty2 : InputType)
    (opts1 opts2 : Option SQLOptions)
    (h1 : input1 = input2) (h2 : ty1 = ty2) (h3 : opts1 = opts2) :
    convertToGo input1 ty1 opts1 = convertToGo input2 ty2 opts2 := by
  subst h1
  subst h2
  subst h3
  rfl

/-- Witness for C8 at concrete arguments. -/
theorem claim8_witness :
    convertToGo "CREATE TABLE t (n INT)" .sql
        (some ⟨.mysql, .db, false⟩) =
      convertToGo "CREATE TABLE t (n INT)" .sql
        (some ⟨.mysql, .db, false⟩) :=
  claim8_deterministic "CREATE TABLE t (n INT)" "CREATE TABLE t (n INT)"
    .sql .sql (some ⟨.mysql, .db, false⟩) (some ⟨.mysql, .db, false⟩)
    rfl rfl rfl

/-- Claim C9 (confirmed): an input that parses as JSON (or YAML, modelled
on its JSON subset) to a non-object scalar — number, string, boolean or
null — converts to the EMPTY string (no struct declaration, no error),
while `validate` accepts the same input as valid. -/
theorem claim9_scalar_empty (input : String) (heap : Heap) (v : JVal)
    (hparse : jsonParse input = some (heap, v)) (hv : isScalar v = true) :
    convertToGo input .json none = .ok "" ∧
    convertToGo input .yaml none = .ok "" ∧
    validateFormatJson input = true ∧
    validateFormatYaml input = true := by
  have hempty : jsonToGo heap v "AutoGen" = "" := by
    cases v <;> simp_all [isScalar] <;> simp [jsonToGo, jsonToGoF]
  have hblank := jsonParse_some_nonblank input (heap, v) hparse
  have hne : trimJs input.data ≠ [] := by
    intro hnil
    have hnil' : trimJs input.toList = [] := hnil
    rw [hnil'] at hblank
    simp at hblank
  refine ⟨?_, ?_, ?_, ?_⟩
  · simp [convertToGo, hparse, hempty]
  · simp [convertToGo, yamlParse, hparse, hempty]
  · simp [validateFormatJson, hne, hparse]
  · simp [validateFormatYaml, yamlParse, hne, hparse]

/-- Witness for C9 at the scalar JSON input `true`. -/
theorem claim9_witness :
    jsonParse "true" = some ([], JVal.jbool true) ∧
    isScalar (JVal.jbool true) = true ∧
    (convertToGo "true" .json none = .ok "" ∧
     convertToGo "true" .yaml none = .ok "" ∧
     validateFormatJson "true" = true ∧
     validateFormatYaml "true" = true) :=
  ⟨rfl, rfl, claim9_scalar_empty "true" [] (JVal.jbool true) rfl rfl⟩

/-- Claim C10, counterexample: the token `toString` is absent from the
fixed proto-to-Go table, yet it is NOT used verbatim as the Go field type:
`typeMap['toString']` hits the member inherited from `Object.prototype`,
which is truthy, so `typeMap[type] || type` never reaches the fallback and
the rendered field type is the coerced inherited function, refuting the
claim's universal "the token itself is used verbatim". -/
theorem claim10_counterexample :
    protoTypeMap.lookup "toString" = none ∧
    protoTypeToGo "toString" ≠ "toString" ∧
    protoToGo "message User \x7b\ntoString opts = 1;\n\x7d" =
      "type User struct \x7b\n\tOpts function toString() \x7b [native code] \x7d `json:\"opts\"`\n\x7d\n" :=
  ⟨rfl, by decide, rfl⟩

/-- Claim C10 (amended): a Protobuf field type token that is absent from
the fixed proto-to-Go table AND is not one of the property names a plain
object inherits from `Object.prototype` (`toString`, `constructor`,
`valueOf`, `hasOwnProperty`, ...) is used verbatim as the Go field type;
in particular a field referencing another message (`Profile profile = 8;`)
renders with the message name `Profile` as its type. (A table-absent
inherited name instead renders the coerced inherited member, see the
counterexample.) -/
theorem claim10_proto_passthrough :
    (∀ ty : String, protoTypeMap.lookup ty = none →
      objectProtoProps.contains ty = false → protoTypeToGo ty = ty) ∧
    protoToGo "message User \x7b\nProfile profile = 8;\n\x7d" =
      "type User struct \x7b\n\tProfile Profile `json:\"profile\"`\n\x7d\n" := by
  refine ⟨?_, rfl⟩
  intro ty h1 h2
  have h3 : ty ∉ objectProtoProps := by simpa using h2
  simp [protoTypeToGo, h1, h3]

/-- Witness for C10 at the table-absent, non-inherited token `Profile`. -/
theorem claim10_witness :
    protoTypeMap.lookup "Profile" = none ∧
    objectProtoProps.contains "Profile" = false ∧
    protoTypeToGo "Profile" = "Profile" :=
  ⟨rfl, by decide, claim10_proto_passthrough.1 "Profile" rfl (by decide)⟩

end DF2S
